import Mathlib

set_option autoImplicit false

namespace Dox

/-!
Verification of the `dox.py` post-processing engine against its specification.

The development shallowly embeds the relevant parts of the source:
the per-document fix pipeline (`postprocess_file`), the dead-link fixer
(`DeadLinksFix`), the index-page fixer (`IndexPageFix`), the bracket-shortcode
substitutions of `CustomTagsFix` (entities and emoji), the modifier-badge
injector (`ModifiersFix2`), the compound-name classifier
(`CodeBlockFix.__colourize_compound_def`), the auto-link injector
(`AutoDocLinksFix`) and the code-block fixer (`CodeBlockFix.__call__`).
Python exceptions are modelled with `Except`, mutation by explicit state
passing, and the runtime-configured pattern sets by function parameters.
-/

/-! ### Shared HTML class-attribute helpers (`html_add_class` etc.)

A tag's `class` attribute is modelled as the list of its classes (an absent
attribute and an empty list are identified, matching how the source only ever
tests membership). -/

/-- `html_add_class` for a single class: append if not present, report whether
anything was appended. -/
def html_add_class (classes : List String) (c : String) : List String × Bool :=
  if classes.contains c then (classes, false) else (classes ++ [c], true)

/-- `html_remove_class` for a single class: remove the first occurrence if
present, report whether anything was removed. -/
def html_remove_class (classes : List String) (c : String) : List String × Bool :=
  if classes.contains c then (classes.erase c, true) else (classes, false)

/-- `html_remove_class` with a collection argument: each listed class is
removed if present; the flag reports whether any removal happened. -/
def html_remove_classes (classes : List String) (cs : List String) : List String × Bool :=
  cs.foldl (fun acc c =>
    let r := html_remove_class acc.1 c
    (r.1, acc.2 || r.2)) (classes, false)

/-- `html_set_class` for a single class: the class list is reset and the class
added. -/
def html_set_class (c : String) : List String :=
  [c]

/-- Decidable equality for `Except` results. -/
instance {e a : Type} [DecidableEq e] [DecidableEq a] : DecidableEq (Except e a) := fun x y =>
  match x, y with
  | .error u, .error v =>
    if h : u = v then .isTrue (by rw [h]) else .isFalse (by simp [h])
  | .error _, .ok _ => .isFalse (by simp)
  | .ok _, .error _ => .isFalse (by simp)
  | .ok u, .ok v =>
    if h : u = v then .isTrue (by rw [h]) else .isFalse (by simp [h])

/-! ### Fix pipeline: `postprocess_file`

`postprocess_file(dir, file, fixes)` checks the shared `_thread_error` flag,
parses the document, runs each fixer of `fixes` once in order (smoothing the
document after every fixer that reported a change), flushes the document if
some fixer reported a change, and on any exception sets `_thread_error`
instead of flushing.  The document type is abstract (the source is parametric
in `fixes`); a fixer returns `Except.error` when it raises. -/

/-- A fixer: the contract `apply(dir, file, document) -> changed`, with the
mutated document returned explicitly and a raise modelled as an error. -/
def Fixer (α : Type) : Type := α → Except Unit (α × Bool)

/-- Outcome of the fixer loop inside `postprocess_file`: either some fixer
raised (carrying the `changed` flag accumulated so far, which the `except`
branch returns), or all fixers completed. -/
inductive RunOutcome (α : Type) where
  | err (changedSoFar : Bool)
  | ok (doc : α) (changed : Bool)
deriving DecidableEq, Repr

/-- The `for fix in fixes` loop of `postprocess_file`: each fixer runs exactly
once, in order; a fixer that reports a change triggers `doc.smooth()` and sets
`changed`. -/
def runFixes {α : Type} (smooth : α → α) : List (Fixer α) → α → Bool → RunOutcome α
  | [], doc, changed => .ok doc changed
  | fix :: rest, doc, changed =>
    match fix doc with
    | .error _ => .err changed
    | .ok (doc2, fired) =>
      if fired then runFixes smooth rest (smooth doc2) true
      else runFixes smooth rest doc2 changed

/-- Result of one `postprocess_file` call: the in-memory document (if the run
completed), how many times `doc.flush()` ran, the `_thread_error` flag after
the call, and the function's return value. -/
structure PostResult (α : Type) where
  doc : Option α
  flushes : Nat
  threadErrorOut : Bool
  returned : Bool
deriving DecidableEq, Repr

/-- `postprocess_file`: abort if `_thread_error` is already set; otherwise
parse, run the fixers once each, and flush exactly when some fixer reported a
change; a parse or fixer exception sets `_thread_error` and nothing is
flushed. -/
def postprocess_file {α : Type} (smooth : α → α) (threadError : Bool)
    (parse : Except Unit α) (fixes : List (Fixer α)) : PostResult α :=
  if threadError then ⟨none, 0, true, false⟩
  else
    match parse with
    | .error _ => ⟨none, 0, true, false⟩
    | .ok doc =>
      match runFixes smooth fixes doc false with
      | .err c => ⟨none, 0, true, c⟩
      | .ok doc2 changed => ⟨some doc2, if changed then 1 else 0, false, changed⟩

/-- Specification-side trace of the fixer loop: `some (doc, flags)` when every
fixer completes without raising, recording each fixer's reported flag in
order. -/
def runTrace {α : Type} (smooth : α → α) : List (Fixer α) → α → Option (α × List Bool)
  | [], doc => some (doc, [])
  | fix :: rest, doc =>
    match fix doc with
    | .error _ => none
    | .ok (doc2, fired) =>
      match runTrace smooth rest (if fired then smooth doc2 else doc2) with
      | none => none
      | some (dfin, flags) => some (dfin, fired :: flags)

/-- The control flow the specification asserts for the pipeline (it is not the
source's): repeat the full ordered fixer sequence until a whole pass reports
no change, bounded by fuel; `none` when the fuel runs out or a fixer raises. -/
def pipelineSpecLoop {α : Type} (smooth : α → α) (fixes : List (Fixer α)) :
    Nat → α → Option α
  | 0, _ => none
  | fuel + 1, doc =>
    match runFixes smooth fixes doc false with
    | .err _ => none
    | .ok doc2 changed => if changed then pipelineSpecLoop smooth fixes fuel doc2 else some doc2

/-! ### `DeadLinksFix`

`DeadLinksFix.__call__` walks every anchor of the body; an anchor whose `href`
fully matches `([-_a-zA-Z0-9]+\.html?)(#(.*))?` and whose target file does not
exist loses its `m-doc` class, and, when its parent is a `dt` or `div`, gains
the `m-doc-self` class and an in-page `href` pointing at a fallback id: the
parent's existing id, else the nonempty fragment, else
`multi_sha256(match[1], anchor.string)` (which is also stored as the parent's
id).  `multi_sha256` (sha256 over the concatenated arguments, from `hashlib`)
is kept as a function parameter; it asserts its arguments are not `None`, so a
missing `anchor.string` raises. -/

/-- Characters allowed in the file part of the dead-link pattern. -/
def isHrefNameChar (c : Char) : Bool :=
  c = '-' || c = '_' || c.isAlpha || c.isDigit

/-- Split a character list at the first `#`, returning the part before and,
when a `#` is present, the part after it. -/
def splitHash : List Char → List Char × Option (List Char)
  | [] => ([], none)
  | c :: cs =>
    if c = '#' then ([], some cs)
    else
      let p := splitHash cs
      (c :: p.1, p.2)

/-- Does a string match `[-_a-zA-Z0-9]+\.html?` in full?  The name part
cannot contain a dot, so the `.htm`/`.html` suffix is unambiguous. -/
def isHrefFile (s : String) : Bool :=
  match s.toList.reverse with
  | 'l' :: 'm' :: 't' :: 'h' :: '.' :: baseRev =>
    !baseRev.isEmpty && baseRev.all isHrefNameChar
  | 'm' :: 't' :: 'h' :: '.' :: baseRev =>
    !baseRev.isEmpty && baseRev.all isHrefNameChar
  | _ => false

/-- Full match of an `href` against `([-_a-zA-Z0-9]+\.html?)(?:#(.*))?`:
the target file and the optional fragment (`.` does not match a newline, so a
fragment containing one defeats the whole match). -/
def deadHrefMatch (href : String) : Option (String × Option String) :=
  let p := splitHash href.toList
  let file := String.mk p.1
  if isHrefFile file then
    match p.2 with
    | none => some (file, none)
    | some frag =>
      if frag.contains '\n' then none else some (file, some (String.mk frag))
  else none

/-- An anchor as `DeadLinksFix` sees it: its `href`, class list, single string
(`anchor.string`, absent for anchors without exactly one string child), and
its parent's name and id. -/
structure DAnchor where
  href : String
  classes : List String
  astring : Option String
  parentName : String
  parentId : Option String
deriving DecidableEq, Repr

/-- The body of the `for anchor in doc.body('a')` loop of
`DeadLinksFix.__call__` for one anchor: `ex` is `os.path.exists` on the
output directory. When the parent has no id and the fragment is empty or
absent, the source calls `multi_sha256` — whose body starts with
`hashlib.sha256()`, and `hashlib` is never imported in the module — so that
branch raises `NameError` before anything is hashed, modelled as the error
outcome. -/
def deadLinksFixAnchor (ex : String → Bool)
    (a : DAnchor) : Except Unit (DAnchor × Bool) :=
  match deadHrefMatch a.href with
  | none => .ok (a, false)
  | some (file, frag) =>
    if ex file then .ok (a, false)
    else
      let a1 := { a with classes := (html_remove_class a.classes "m-doc").1 }
      if a1.parentName = "dt" || a1.parentName = "div" then
        let a2 := { a1 with classes := (html_add_class a1.classes "m-doc-self").1 }
        match a2.parentId with
        | some pid => .ok ({ a2 with href := "#" ++ pid }, true)
        | none =>
          match (match frag with
                 | some f => if f.isEmpty then none else some f
                 | none => none) with
          | some f => .ok ({ a2 with parentId := some f, href := "#" ++ f }, true)
          | none => .error ()
      else .ok (a1, true)

/-- A document as `DeadLinksFix` sees it: the anchors of its body in order. -/
structure DLDoc where
  anchors : List DAnchor
deriving DecidableEq, Repr

/-- The full anchor loop of `DeadLinksFix.__call__`: anchors processed in
order, `changed` the disjunction of the per-anchor flags; an exception aborts
the fixer. -/
def deadLinksFixList (ex : String → Bool) :
    List DAnchor → Except Unit (List DAnchor × Bool)
  | [] => .ok ([], false)
  | a :: rest =>
    match deadLinksFixAnchor ex a with
    | .error e => .error e
    | .ok (a2, c) =>
      match deadLinksFixList ex rest with
      | .error e => .error e
      | .ok (rest2, c2) => .ok (a2 :: rest2, c || c2)

/-- `DeadLinksFix` packaged with the pipeline's fixer contract. -/
def deadLinksFixer (ex : String → Bool) :
    Fixer DLDoc := fun d =>
  match deadLinksFixList ex d.anchors with
  | .error e => .error e
  | .ok (l, c) => .ok (⟨l⟩, c)

/-! ### An HTML node tree

Element nodes carry their name, the `class` attribute (as a list), the other
attributes, and their children; string nodes carry their text. -/

/-- A parsed HTML node. -/
inductive HNode where
  | htext (s : String)
  | helem (name : String) (classes : List String) (attrs : List (String × String))
      (children : List HNode)

mutual

/-- Decidable equality on nodes. -/
def HNode.decEq : (a b : HNode) → Decidable (a = b)
  | .htext s, .htext t =>
    if h : s = t then .isTrue (by rw [h]) else .isFalse (by simp [h])
  | .htext _, .helem _ _ _ _ => .isFalse (by simp)
  | .helem _ _ _ _, .htext _ => .isFalse (by simp)
  | .helem n c a ch, .helem n2 c2 a2 ch2 =>
    if h1 : n = n2 then
      if h2 : c = c2 then
        if h3 : a = a2 then
          match HNode.decEqList ch ch2 with
          | .isTrue h4 => .isTrue (by rw [h1, h2, h3, h4])
          | .isFalse h4 => .isFalse (by simp [h1, h2, h3, h4])
        else .isFalse (by simp [h3])
      else .isFalse (by simp [h2])
    else .isFalse (by simp [h1])

/-- Decidable equality on node lists. -/
def HNode.decEqList : (a b : List HNode) → Decidable (a = b)
  | [], [] => .isTrue rfl
  | [], _ :: _ => .isFalse (by simp)
  | _ :: _, [] => .isFalse (by simp)
  | x :: xs, y :: ys =>
    match HNode.decEq x y, HNode.decEqList xs ys with
    | .isTrue h1, .isTrue h2 => .isTrue (by rw [h1, h2])
    | .isTrue h1, .isFalse h2 => .isFalse (by simp [h1, h2])
    | .isFalse h1, _ => .isFalse (by simp [h1])

end

instance : DecidableEq HNode := HNode.decEq

/-- Outcome of a pre-order edit visiting one node: the node itself was the
first match, the edit happened somewhere inside it, or it is untouched. -/
inductive TreeHit where
  | selfMatch
  | changed (n : HNode)
  | clean (n : HNode)

mutual

/-- Depth-first pre-order search for the first element of a given name in one
node (`tag.find(name)`). -/
def findElemN (name : String) : HNode → Option HNode
  | .htext _ => none
  | .helem n cls attrs ch =>
    if n = name then some (.helem n cls attrs ch) else findElemL name ch

/-- Depth-first pre-order search over a list of siblings. -/
def findElemL (name : String) : List HNode → Option HNode
  | [] => none
  | x :: rest =>
    match findElemN name x with
    | some t => some t
    | none => findElemL name rest

end

/-- `tag.find(name)` over the children of a container. -/
def findElemList (name : String) (l : List HNode) : Option HNode :=
  findElemL name l

mutual

/-- Remove the first pre-order element of a given name: one node. -/
def removeFirstN (name : String) : HNode → TreeHit
  | .htext s => .clean (.htext s)
  | .helem n cls attrs ch =>
    if n = name then .selfMatch
    else
      match removeFirstL name ch with
      | (ch2, true) => .changed (.helem n cls attrs ch2)
      | (_, false) => .clean (.helem n cls attrs ch)

/-- Remove the first pre-order element of a given name (`tag.extract()` on
the result of a `find`); the flag reports whether one was removed. -/
def removeFirstL (name : String) : List HNode → List HNode × Bool
  | [] => ([], false)
  | x :: rest =>
    match removeFirstN name x with
    | .selfMatch => (rest, true)
    | .changed x2 => (x2 :: rest, true)
    | .clean _ =>
      let r := removeFirstL name rest
      (x :: r.1, r.2)

end

/-- Remove the first pre-order element of a given name from a forest. -/
def removeFirstElem (name : String) (l : List HNode) : List HNode × Bool :=
  removeFirstL name l

mutual

/-- Replace the first pre-order element of a given name: one node. -/
def replaceFirstN (name : String) (new : List HNode) : HNode → TreeHit
  | .htext s => .clean (.htext s)
  | .helem n cls attrs ch =>
    if n = name then .selfMatch
    else
      match replaceFirstL name new ch with
      | (ch2, true) => .changed (.helem n cls attrs ch2)
      | (_, false) => .clean (.helem n cls attrs ch)

/-- Replace the first pre-order element of a given name by the given nodes
(`tag.replace_with(new)`, optionally with siblings inserted right after);
the flag reports whether a replacement happened. -/
def replaceFirstL (name : String) (new : List HNode) : List HNode → List HNode × Bool
  | [] => ([], false)
  | x :: rest =>
    match replaceFirstN name new x with
    | .selfMatch => (new ++ rest, true)
    | .changed x2 => (x2 :: rest, true)
    | .clean _ =>
      let r := replaceFirstL name new rest
      (x :: r.1, r.2)

end

/-- Replace the first pre-order element of a given name in a forest. -/
def replaceFirstElem (name : String) (new : List HNode) (l : List HNode) : List HNode :=
  (replaceFirstL name new l).1

/-! ### `IndexPageFix`

On `index.html` only: the first `img` of the article is extracted and replaces
the first `h1` (becoming the page banner); when badges are configured, a
`div.gh-badges` strip is inserted right after the banner and the banner gains
the `main_page_banner` class.  `parent.find('h1')` yielding nothing makes
`None.replace_with(...)` raise an `AttributeError`. -/

/-- A badge triple from the configuration: alt text, image source, link
target; an all-`none` triple is a line break. -/
def Badge : Type := Option String × Option String × Option String

/-- Attribute list for an optional attribute value. -/
def optAttr (k : String) (v : Option String) : List (String × String) :=
  match v with
  | none => []
  | some s => [(k, s)]

/-- The badge strip `div.gh-badges` built by `IndexPageFix`. -/
def badgeStrip (badges : List Badge) : HNode :=
  .helem "div" ["gh-badges"] [] (badges.map fun b =>
    match b with
    | (none, none, none) => .helem "br" [] [] []
    | (alt, src, href) =>
      .helem "a" [] (optAttr "href" href ++ [("target", "_blank")])
        [.helem "img" [] (optAttr "src" src ++ optAttr "alt" alt) []])

/-- Add a class to an element node (`html_add_class`); string nodes are
returned unchanged. -/
def addClassNode (c : String) : HNode → HNode
  | .htext s => .htext s
  | .helem n cls attrs ch => .helem n ((html_add_class cls c).1) attrs ch

/-- The article content of a page, as `IndexPageFix` sees it. -/
structure IPDoc where
  articleContent : List HNode
deriving DecidableEq

/-- `IndexPageFix.__call__`: no-op unless the file is `index.html`; otherwise
the first `img` replaces the first `h1`, with the optional badge strip; when
an `img` is found but no `h1` remains, the call raises. -/
def indexPageFix (badges : List Badge) (file : String) (d : IPDoc) :
    Except Unit (IPDoc × Bool) :=
  if file ≠ "index.html" then .ok (d, false)
  else
    match findElemList "img" d.articleContent with
    | none => .ok (d, false)
    | some banner =>
      let content1 := (removeFirstElem "img" d.articleContent).1
      match findElemList "h1" content1 with
      | none => .error ()
      | some _ =>
        if badges.isEmpty then
          .ok (⟨replaceFirstElem "h1" [banner] content1⟩, true)
        else
          let banner2 := addClassNode "main_page_banner" banner
          .ok (⟨replaceFirstElem "h1" [banner2, badgeStrip badges] content1⟩, true)

/-- `IndexPageFix` packaged with the pipeline's fixer contract. -/
def indexPageFixer (badges : List Badge) (file : String) : Fixer IPDoc :=
  fun d => indexPageFix badges file d

/-! ### Python numeral parsing

`int(s, 16)` and `int(s, 10)` on an already-stripped string: an optional
sign, for base 16 an optional `0x`/`0X` prefix, then digits with single
underscores allowed between digits (and after the prefix). -/

/-- Hexadecimal digit value. -/
def hexDigitVal (c : Char) : Option Nat :=
  let n := c.toNat
  if 48 ≤ n ∧ n ≤ 57 then some (n - 48)
  else if 97 ≤ n ∧ n ≤ 102 then some (n - 87)
  else if 65 ≤ n ∧ n ≤ 70 then some (n - 55)
  else none

/-- Decimal digit value. -/
def decDigitVal (c : Char) : Option Nat :=
  let n := c.toNat
  if 48 ≤ n ∧ n ≤ 57 then some (n - 48) else none

/-- Digits continued: a single underscore may sit between two digits. -/
def pyDigitsAux (dv : Char → Option Nat) (base : Nat) : List Char → Nat → Option Nat
  | [], acc => some acc
  | '_' :: cs, acc =>
    match cs with
    | [] => none
    | c :: cs2 =>
      match dv c with
      | some v => pyDigitsAux dv base cs2 (acc * base + v)
      | none => none
  | c :: cs, acc =>
    match dv c with
    | some v => pyDigitsAux dv base cs (acc * base + v)
    | none => none

/-- A nonempty digit sequence with underscores between digits; it must start
with a digit. -/
def pyDigitSeq (dv : Char → Option Nat) (base : Nat) : List Char → Option Nat
  | [] => none
  | c :: cs =>
    match dv c with
    | some v => pyDigitsAux dv base cs v
    | none => none

/-- `int(s, 16)` on a stripped string. -/
def pyIntHex (s : String) : Option Int :=
  let cs := s.toList
  let signed : Bool × List Char :=
    match cs with
    | '-' :: rest => (true, rest)
    | '+' :: rest => (false, rest)
    | _ => (false, cs)
  let body : Option Nat :=
    match signed.2 with
    | '0' :: 'x' :: rest =>
      (match rest with
       | '_' :: rest2 => pyDigitSeq hexDigitVal 16 rest2
       | _ => pyDigitSeq hexDigitVal 16 rest)
    | '0' :: 'X' :: rest =>
      (match rest with
       | '_' :: rest2 => pyDigitSeq hexDigitVal 16 rest2
       | _ => pyDigitSeq hexDigitVal 16 rest)
    | other => pyDigitSeq hexDigitVal 16 other
  match body with
  | none => none
  | some n => some (if signed.1 then -(n : Int) else (n : Int))

/-- `int(s, 10)` on a stripped string. -/
def pyIntDec (s : String) : Option Int :=
  let cs := s.toList
  let signed : Bool × List Char :=
    match cs with
    | '-' :: rest => (true, rest)
    | '+' :: rest => (false, rest)
    | _ => (false, cs)
  match pyDigitSeq decDigitVal 10 signed.2 with
  | none => none
  | some n => some (if signed.1 then -(n : Int) else (n : Int))

/-- Uppercase hexadecimal digit. -/
def hexDigitChar (n : Nat) : Char :=
  if n < 10 then Char.ofNat ('0'.toNat + n) else Char.ofNat ('A'.toNat + n - 10)

/-- Uppercase hexadecimal digits of a positive number, accumulator form (the
fuel bounds the digit count; the number itself suffices). -/
def toHexUpperAux : Nat → Nat → List Char → List Char
  | 0, _, acc => acc
  | _ + 1, 0, acc => acc
  | fuel + 1, n + 1, acc =>
    toHexUpperAux fuel ((n + 1) / 16) (hexDigitChar ((n + 1) % 16) :: acc)

/-- Python `f'{n:X}'` for a natural number. -/
def toHexUpper (n : Nat) : String :=
  if n = 0 then "0" else String.mk (toHexUpperAux (n + 1) n [])

/-- Python `f'{i:X}'` for an integer (a sign followed by the digits of its
magnitude). -/
def intHexFmt (i : Int) : String :=
  if i < 0 then "-" ++ toHexUpper i.natAbs else toHexUpper i.toNat

/-! ### `CustomTagsFix.__single_tags_substitute`: `[entity ...]` and
`[emoji ...]`

The substitute receives the stripped tag payload.  For `entity`/`htmlentity`,
a payload parsing as a base-16 numeral at most `0x10FFFF` becomes `&#x...;`,
anything else passes through as `&payload;`.  For `emoji`, the lowered
payload is read as a hexadecimal then as a decimal numeral and, when the
value is a known emoji code point, that code point is referenced; otherwise
the payload is looked up in the emoji table; an unknown payload yields the
empty string.  The table itself is built once from the raw shortcode → image
URI map: URIs matching `.+unicode/([0-9a-fA-F]+)[.]png.*` contribute their
code point, the aliases `sundae` → `ice_cream` and `info` →
`information_source` are copied in (raising if the target is missing), and
the bookkeeping keys `__codepoints` and `__processed` are stored in the same
dictionary. -/

/-- The payload of the `[entity X]` / `[htmlentity X]` substitution. -/
def entitySubstitute (content : String) : String :=
  if content.isEmpty then ""
  else
    match pyIntHex content with
    | some cp =>
      if cp ≤ 0x10FFFF then "&#x" ++ intHexFmt cp ++ ";" else "&" ++ content ++ ";"
    | none => "&" ++ content ++ ";"

/-- A value of the emoji dictionary: a `[codepoint, uri]` entry, the
`__codepoints` list, or the `__processed` marker. -/
inductive EmojiVal where
  | entry (cp : Nat) (uri : String)
  | cps (l : List Nat)
  | flag (b : Bool)
deriving DecidableEq, Repr

/-- Dictionary insertion (overwrite the key if present, else append). -/
def dictInsert (k : String) (v : EmojiVal) : List (String × EmojiVal) → List (String × EmojiVal)
  | [] => [(k, v)]
  | (k2, v2) :: rest => if k2 = k then (k, v) :: rest else (k2, v2) :: dictInsert k v rest

/-- Dictionary lookup. -/
def dictGet? (k : String) : List (String × EmojiVal) → Option EmojiVal
  | [] => none
  | (k2, v) :: rest => if k2 = k then some v else dictGet? k rest

/-- ASCII lowering of a string (`str.lower()` on the ASCII payloads at
hand). -/
def strToLower (s : String) : String :=
  String.mk (s.toList.map Char.toLower)

/-- Case-insensitive literal prefix match (the pattern is given lowercase);
returns the rest of the input on success. -/
def lcPrefix : List Char → List Char → Option (List Char)
  | [], rest => some rest
  | p :: ps, c :: rest => if c.toLower = p then lcPrefix ps rest else none
  | _ :: _, [] => none

/-- Maximal run of hexadecimal digits at the head of the input. -/
def hexRun : List Char → List Char × List Char
  | [] => ([], [])
  | c :: cs =>
    if (hexDigitVal c).isSome then
      let r := hexRun cs
      (c :: r.1, r.2)
    else ([], c :: cs)

/-- Try `unicode/<hex>+.png` (case-insensitively) at the head of the input,
returning the code point. -/
def uriMatchAt (cs : List Char) : Option Nat :=
  match lcPrefix ("unicode/".toList) cs with
  | none => none
  | some rest =>
    let r := hexRun rest
    match pyDigitSeq hexDigitVal 16 r.1 with
    | none => none
    | some v =>
      match lcPrefix (".png".toList) r.2 with
      | none => none
      | some _ => some v

/-- Scan for the rightmost `unicode/<hex>+.png` occurrence preceded by at
least one character (the greedy `.+` of the URI pattern). -/
def uriScan : List Char → Nat → Option Nat → Option Nat
  | [], _, best => best
  | c :: cs, n, best =>
    let here := if n ≥ 1 then uriMatchAt (c :: cs) else none
    uriScan cs (n + 1) (match here with | some v => some v | none => best)

/-- Full match of an image URI against `.+unicode/([0-9a-fA-F]+)[.]png.*`
(case-insensitive, `.` not matching a newline): the emoji code point. -/
def uriCodepoint (s : String) : Option Nat :=
  if s.toList.contains '\n' then none else uriScan s.toList 0 none

/-- The processed emoji table: its dictionary and the known-code-point set. -/
structure EmojiTable where
  entries : List (String × EmojiVal)
  codepoints : List Nat
deriving DecidableEq, Repr

/-- Insert a code point into the known set. -/
def insertCp (cp : Nat) (l : List Nat) : List Nat :=
  if l.contains cp then l else l ++ [cp]

/-- Build the processed emoji table from the raw shortcode → URI map,
mirroring the first-use initialisation in the emoji branch: entries whose URI
matches the pattern are kept with their code point, then the two aliases are
copied (a missing alias target raises a `KeyError`), then the bookkeeping
keys are stored. -/
def buildEmojis (raw : List (String × String)) : Except Unit EmojiTable :=
  let base := raw.foldl (fun acc kv =>
    match uriCodepoint kv.2 with
    | some cp => (dictInsert kv.1 (.entry cp kv.2) acc.1, insertCp cp acc.2)
    | none => acc) ([], [])
  match dictGet? "ice_cream" base.1 with
  | none => .error ()
  | some v1 =>
    let e1 := dictInsert "sundae" v1 base.1
    match dictGet? "information_source" e1 with
    | none => .error ()
    | some v2 =>
      let e2 := dictInsert "info" v2 e1
      let e3 := dictInsert "__codepoints" (.cps base.2) e2
      let e4 := dictInsert "__processed" (.flag true) e3
      .ok ⟨e4, base.2⟩

/-- `f'&#x{cp:X};&#xFE0F;'`, the emoji reference emitted for a code point. -/
def emojiRef (cp : Nat) : String :=
  "&#x" ++ toHexUpper cp ++ ";&#xFE0F;"

/-- The payload of the `[emoji X]` substitution, against a processed table:
the lowered payload is read as hex then decimal (a known code point wins),
then looked up in the dictionary (where the bookkeeping values `[0]`-index
differently: a code-point list yields its first element, the `True` marker
raises a `TypeError`), and an unknown payload yields the empty string. -/
def emojiSubstitute (t : EmojiTable) (content0 : String) : Except Unit String :=
  let content := strToLower content0
  if content.isEmpty then .ok ""
  else
    let hexHit : Option Nat :=
      match pyIntHex content with
      | some cp => if 0 ≤ cp ∧ t.codepoints.contains cp.toNat then some cp.toNat else none
      | none => none
    match hexHit with
    | some cp => .ok (emojiRef cp)
    | none =>
      let decHit : Option Nat :=
        match pyIntDec content with
        | some cp => if 0 ≤ cp ∧ t.codepoints.contains cp.toNat then some cp.toNat else none
        | none => none
      match decHit with
      | some cp => .ok (emojiRef cp)
      | none =>
        match dictGet? content t.entries with
        | some (.entry cp _) => .ok (emojiRef cp)
        | some (.cps []) => .error ()
        | some (.cps (cp :: _)) => .ok (emojiRef cp)
        | some (.flag _) => .error ()
        | none => .ok ""

/-! ### `ModifiersFix2`

The fixer extracts trailing signature modifiers from the serialized
`span.m-doc-wrap-bumper` with the substitution
`\s+(defaulted|noexcept|constexpr|(?:pure )?virtual|protected|__(?:(?:vector|std|fast)call|cdecl))\s+ -> ' '`,
collecting the matches in scan order, then, in `end` (the last content of the
`span.m-doc-wrap`), inserts one badge per match: the first badge lands before
`end`'s first `span` (or is appended when there is none), and every further
badge is inserted before the previously inserted one. -/

/-- The modifier alternatives in the alternation order of the pattern (the
optional group of `(?:pure )?virtual` is tried greedily first). -/
def modifierAlts : List String :=
  ["defaulted", "noexcept", "constexpr", "pure virtual", "virtual", "protected",
   "__vectorcall", "__stdcall", "__fastcall", "__cdecl"]

/-- `_modifierClasses`: the badge colour class of each modifier. -/
def modifierClass (m : String) : String :=
  if m = "defaulted" then "m-info"
  else if m = "noexcept" then "m-success"
  else if m = "constexpr" then "m-primary"
  else if m = "pure virtual" then "m-warning"
  else if m = "virtual" then "m-warning"
  else if m = "protected" then "m-warning"
  else "m-special"

/-- Literal prefix match returning the rest of the input. -/
def strPrefix : List Char → List Char → Option (List Char)
  | [], rest => some rest
  | p :: ps, c :: rest => if c = p then strPrefix ps rest else none
  | _ :: _, [] => none

/-- Maximal whitespace run at the head of the input (the greedy `\s+`). -/
def wsRun : List Char → List Char × List Char
  | [] => ([], [])
  | c :: cs =>
    if c.isWhitespace then
      let r := wsRun cs
      (c :: r.1, r.2)
    else ([], c :: cs)

/-- Try the modifier alternatives in order at the given position; a candidate
matches when it is a literal prefix followed by at least one whitespace
character; the trailing `\s+` is consumed greedily. -/
def tryAlts : List String → List Char → Option (String × List Char)
  | [], _ => none
  | m :: ms, cs =>
    match strPrefix m.toList cs with
    | some rest =>
      (match rest with
       | c :: _ =>
         if c.isWhitespace then some (m, (wsRun rest).2) else tryAlts ms cs
       | [] => tryAlts ms cs)
    | none => tryAlts ms cs

/-- One match attempt of `\s+(modifier)\s+` at the given position. -/
def tryModAt (cs : List Char) : Option (String × List Char) :=
  let w := wsRun cs
  if w.1.isEmpty then none
  else
    match tryAlts modifierAlts w.2 with
    | none => none
    | some (m, rest) => some (m, rest)

/-- The substitution scan of `re.sub`: at each position try a match; on
success emit the replacement `' '`, record the modifier, and continue after
the consumed text.  Each step consumes at least one character, so fuel equal
to the input length suffices. -/
def modScanFuel : Nat → List Char → List String × List Char
  | 0, cs => ([], cs)
  | _ + 1, [] => ([], [])
  | fuel + 1, c :: cs =>
    match tryModAt (c :: cs) with
    | some (m, rest) =>
      let r := modScanFuel fuel rest
      (m :: r.1, ' ' :: r.2)
    | none =>
      let r := modScanFuel fuel cs
      (r.1, c :: r.2)

/-- The modifier extraction of `ModifiersFix2.__call__` over the serialized
bumper: the matches in scan order, and the rewritten bumper text. -/
def modExtract (s : String) : List String × String :=
  let cs := s.toList
  let r := modScanFuel (cs.length + 1) cs
  (r.1, String.mk r.2)

/-- The badge span injected for a modifier. -/
def badgeNode (m : String) : HNode :=
  .helem "span" ["dox-injected", "m-label", modifierClass m] [] [.htext m]

/-- Index of the first `span` among `end`'s contents (`end.find('span')`). -/
def firstSpanIdx : List HNode → Option Nat
  | [] => none
  | .helem name _ _ _ :: rest =>
    if name = "span" then some 0 else (firstSpanIdx rest).map (· + 1)
  | .htext _ :: rest => (firstSpanIdx rest).map (· + 1)

/-- The badge insertion loop: each badge is created `before=lastInserted`
(appended when there is none yet) and followed by a space, and becomes the
new `lastInserted`. -/
def insertBadges : List String → List HNode → Option Nat → List HNode
  | [], cur, _ => cur
  | m :: ms, cur, some i =>
    insertBadges ms (cur.take i ++ [badgeNode m, .htext " "] ++ cur.drop i) (some i)
  | m :: ms, cur, none =>
    insertBadges ms (cur ++ [badgeNode m, .htext " "]) (some cur.length)

/-- The per-function core of `ModifiersFix2.__call__`: extract the modifiers
from the serialized bumper and reinsert them as badges into `end`'s contents;
returns the rewritten bumper text, the new contents and the changed flag. -/
def modifiersFix2Func (bumperStr : String) (endContents : List HNode) :
    String × List HNode × Bool :=
  let r := modExtract bumperStr
  if r.1.isEmpty then (bumperStr, endContents, false)
  else (r.2, insertBadges r.1 endContents (firstSpanIdx endContents), true)

/-- The sequence `[badge m, ' ']` for each listed modifier, in order. -/
def badgeSeq (ms : List String) : List HNode :=
  ms.flatMap (fun m => [badgeNode m, .htext " "])

/-! ### `CodeBlockFix.__colourize_compound_def`

The classifier receives a maximal compound-name token run (leading and
trailing bare `::` already trimmed) and the compiled pattern sets.  The
pattern sets are runtime data (defaults + configuration + XML-discovered
names), so they are parameters here.  A token dropped from the working list
stays in the document unchanged; the namespace branch additionally destroys
every token of the surviving prefix but the first, which receives the
concatenated text. -/

/-- A classified leaf token inside a rendered code block. -/
structure TagSpan where
  classes : List String
  text : String
deriving DecidableEq, Repr

/-- Concatenation of the token texts (`''.join(tag.get_text() ...)`). -/
def concatTexts (tags : List TagSpan) : String :=
  String.join (tags.map (fun t => t.text))

/-- Split off the maximal run of trailing `::` tokens:
`l = (splitTrailingSeps l).1 ++ (splitTrailingSeps l).2`. -/
def splitTrailingSeps (tags : List TagSpan) : List TagSpan × List TagSpan :=
  let rev := tags.reverse
  ((rev.dropWhile (fun t => t.text = "::")).reverse,
   (rev.takeWhile (fun t => t.text = "::")).reverse)

/-- The namespace backtracking loop: drop trailing tokens (and then trailing
`::`) until the remaining prefix matches a known namespace; `some (core,
dropped)` returns the surviving prefix and the dropped tokens in document
order; `none` when the list is exhausted. -/
def nsSearchAux (isNs : String → Bool) :
    Nat → List TagSpan → Option (List TagSpan × List TagSpan)
  | 0, _ => none
  | fuel + 1, tags =>
    if tags.isEmpty then none
    else if isNs (concatTexts tags) then some (tags, [])
    else
      match tags.getLast? with
      | none => none
      | some last =>
        let p := splitTrailingSeps tags.dropLast
        match nsSearchAux isNs fuel p.1 with
        | none => none
        | some (core, dropped) => some (core, dropped ++ p.2 ++ [last])

/-- The namespace backtracking loop, with enough fuel (every iteration drops
at least one token, so the run length bounds the iteration count). -/
def nsSearch (isNs : String → Bool) (tags : List TagSpan) :
    Option (List TagSpan × List TagSpan) :=
  nsSearchAux isNs (tags.length + 1) tags

/-- `CodeBlockFix.__colourize_compound_def` as a pure function from the token
run to the rewritten run and the returned flag. -/
def colourizeAux (isEnum isType isNs : String → Bool) :
    Nat → List TagSpan → List TagSpan × Bool
  | 0, tags => (tags, false)
  | fuel + 1, tags =>
    if tags.isEmpty then (tags, false)
    else
      let full := concatTexts tags
      if isEnum full then
        match tags.getLast? with
        | none => (tags, false)
        | some last =>
          let marked : TagSpan := { last with classes := html_set_class "ne" }
          let p := splitTrailingSeps tags.dropLast
          if p.1.isEmpty then (p.2 ++ [marked], true)
          else
            let r := colourizeAux isEnum isType isNs fuel p.1
            (r.1 ++ p.2 ++ [marked], true)
      else if isType full then
        match tags.getLast? with
        | none => (tags, false)
        | some last =>
          let marked : TagSpan := { last with classes := html_set_class "ut" }
          let p := splitTrailingSeps tags.dropLast
          if p.1.isEmpty then (p.2 ++ [marked], true)
          else
            let r := colourizeAux isEnum isType isNs fuel p.1
            (r.1 ++ p.2 ++ [marked], true)
      else
        match nsSearch isNs tags with
        | none => (tags, false)
        | some (core, dropped) =>
          match core with
          | [] => (tags, false)
          | first :: _ =>
            let removed := html_remove_classes first.classes ["n", "nl", "kt"]
            let newCls := if removed.2 then (html_add_class removed.1 "ns").1 else removed.1
            ([⟨newCls, concatTexts core⟩] ++ dropped, true)

/-- `CodeBlockFix.__colourize_compound_def` with enough fuel (every recursive
call drops at least the trailing token, so the run length bounds the
recursion depth). -/
def colourize (isEnum isType isNs : String → Bool) (tags : List TagSpan) :
    List TagSpan × Bool :=
  colourizeAux isEnum isType isNs (tags.length + 1) tags

/-- `flatten_into_compiled_regex` for a set of literal name patterns with the
`(?:::)?` prefix the enum set is compiled with: the full string equals a
pattern, optionally with a leading `::`. -/
def enumMatcher (pats : List String) (s : String) : Bool :=
  pats.any (fun p => s = p || s = "::" ++ p)

/-- `flatten_into_compiled_regex` for literal name patterns with both the
`(?:::)?` prefix and suffix the type and namespace sets are compiled with. -/
def typeMatcher (pats : List String) (s : String) : Bool :=
  pats.any (fun p => s = p || s = "::" ++ p || s = p ++ "::" || s = "::" ++ p ++ "::")

/-! ### `AutoDocLinksFix` (injection phase)

The injection phase collects the text strings lying under the allow-listed
containers but not inside any anchor (`html_string_descendants` with the
`html_find_parent(t, 'a', ...) is None` filter), then for each configured
pattern in order rewrites every collected string: matched stretches become
generated anchors, and of the replacement only the strings not inside an
anchor are re-queued for the remaining patterns (`del strings[i]` plus the
filtered re-collection).  The per-pattern, per-string match result is kept
abstract as a segmentation of the string into plain and matched stretches;
the net effect of the scan-list loop is rendered as a traversal that rewrites
exactly the text nodes outside anchors and leaves every anchor subtree
untouched. -/

/-- A segmentation of one text string by one pattern: unmatched stretches and
matched stretches, in order. -/
inductive Seg where
  | plain (s : String)
  | hit (s : String)
deriving DecidableEq, Repr

/-- One configured auto-link pattern: its match segmentation and target
URI. -/
structure AutoExpr where
  split : String → List Seg
  uri : String

/-- The anchor `AutoDocLinksFix.__substitute` generates around a match:
`m-doc dox-injected`, with `dox-external` and `target="_blank"` for external
targets. -/
def injectedAnchor (uri : String) (m : String) : HNode :=
  if (strPrefix "http".toList uri.toList).isSome then
    .helem "a" ["m-doc", "dox-injected", "dox-external"]
      [("href", uri), ("target", "_blank")] [.htext m]
  else
    .helem "a" ["m-doc", "dox-injected"] [("href", uri)] [.htext m]

/-- The nodes a rewritten text string re-parses into: plain stretches become
text nodes (empty ones vanish), matched stretches become generated
anchors. -/
def segNodes (e : AutoExpr) (s : String) : List HNode :=
  (e.split s).flatMap (fun seg =>
    match seg with
    | .plain t => if t.isEmpty then [] else [.htext t]
    | .hit m => [injectedAnchor e.uri m])

mutual

/-- One pattern's pass over the collected strings, one node at a time: text
nodes outside anchors are rewritten by the segmentation; anchor subtrees are
skipped entirely (their strings fail the `html_find_parent` filter and are
never in the scan list); other elements keep their shape and have their
children rewritten. -/
def wrapNode (e : AutoExpr) : HNode → List HNode
  | .htext s => segNodes e s
  | .helem n cls attrs ch =>
    if n = "a" then [.helem n cls attrs ch]
    else [.helem n cls attrs (wrapList e ch)]

/-- One pattern's rewrite of a forest. -/
def wrapList (e : AutoExpr) : List HNode → List HNode
  | [] => []
  | x :: rest => wrapNode e x ++ wrapList e rest

end

/-- The whole injection phase: the configured patterns applied in order. -/
def autoLinkPass (exprs : List AutoExpr) (l : List HNode) : List HNode :=
  exprs.foldl (fun acc e => wrapList e acc) l

mutual

/-- The anchor nodes under one node in pre-order, each with its entire
subtree (anchors nested inside another anchor are part of the outer one's
subtree). -/
def anchorsOfNode : HNode → List HNode
  | .htext _ => []
  | .helem n cls attrs ch =>
    if n = "a" then [.helem n cls attrs ch] else anchorsOf ch

/-- All anchor nodes of a forest in pre-order. -/
def anchorsOf : List HNode → List HNode
  | [] => []
  | x :: rest => anchorsOfNode x ++ anchorsOf rest

end

/-! ### `CodeBlockFix.__call__`

The fixer has two phases.  Phase one repeats, over every `pre`/`code` block of
class `m-code` and until a whole pass changes no block: comment stitching,
compound-name collection and classification, literal-suffix reclassification,
macro reclassification and keyword repair.  Phase two repeats, over the
inline `code` elements of class `m-code`/`m-console` collected once: an
element whose parent is a `p` inside a `div` is renamed `pre` and moved
before its parent (which is destroyed when emptied).  The `changed` flag
accumulated by phase one is overwritten by `changed = False` between the
phases, so the function's return value only reflects phase two.

A code block is a flat list of leaf spans and plain strings; an inline
occurrence is summarised by the fields its promotion reads and writes.  The
compiled pattern sets and macro patterns are parameters.  Both fixpoint
loops take explicit fuel (the source loops until a pass reports no change;
every theorem below holds for every fuel). -/

/-- A leaf of a rendered code block: a classified span or a plain string. -/
inductive CItem where
  | cspan (classes : List String) (text : String)
  | cstr (s : String)
deriving DecidableEq, Repr

/-- The text of a leaf (`get_text`). -/
def citemText : CItem → String
  | .cspan _ t => t
  | .cstr s => s

/-- A span of class `o` whose string is the butchered comment opener. -/
def isOpenMarker (it : CItem) : Bool :=
  match it with
  | .cspan cls t => cls.contains "o" && t = "/!*"
  | .cstr _ => false

/-- A span of class `o` whose string is the butchered comment closer. -/
def isCloseMarker (it : CItem) : Bool :=
  match it with
  | .cspan cls t => cls.contains "o" && t = "*!/"
  | .cstr _ => false

/-- Split a list at the first item satisfying the predicate. -/
def splitAtFirst (p : CItem → Bool) : List CItem → Option (List CItem × CItem × List CItem)
  | [] => none
  | it :: rest =>
    if p it then some ([], it, rest)
    else
      match splitAtFirst p rest with
      | none => none
      | some (pre, x, post) => some (it :: pre, x, post)

/-- Comment stitching: each `/!*` marker with a matching `*!/` sibling melts
the stretch between them into one `cm` span holding `/*`, the intervening
text and `*/`; the scan resumes after the closer.  Each step consumes the two
markers, so fuel equal to the block length suffices. -/
def stitchFuel : Nat → List CItem → List CItem × Bool
  | 0, l => (l, false)
  | fuel + 1, l =>
    match splitAtFirst isOpenMarker l with
    | none => (l, false)
    | some (pre, _op, afterOp) =>
      match splitAtFirst isCloseMarker afterOp with
      | none => (l, false)
      | some (mid, _cl, rest) =>
        let newText := "/*" ++ String.join (mid.map citemText) ++ "*/"
        let r := stitchFuel fuel rest
        (pre ++ [.cspan (html_set_class "cm") newText] ++ r.1, true)

/-- Comment stitching over a block. -/
def stitchComments (l : List CItem) : List CItem × Bool :=
  stitchFuel (l.length + 1) l

/-- Identifier characters of the namespace-token grammar. -/
def isIdentChar (c : Char) : Bool :=
  c.isAlpha || c = '_' || c.isDigit

/-- Identifier start characters. -/
def isIdentStart (c : Char) : Bool :=
  c.isAlpha || c = '_'

/-- `[a-zA-Z_][a-zA-Z_0-9]*` in full. -/
def isIdent (cs : List Char) : Bool :=
  match cs with
  | [] => false
  | c :: rest => isIdentStart c && rest.all isIdentChar

/-- Full match of `__ns_token_expr`: `::`, an identifier, `::identifier` or
`identifier::`. -/
def nsTokenShape (s : String) : Bool :=
  let cs := s.toList
  s = "::" || isIdent cs ||
  (match cs with
   | ':' :: ':' :: rest => isIdent rest
   | _ => false) ||
  (match cs.reverse with
   | ':' :: ':' :: rest => isIdent rest.reverse
   | _ => false)

/-- Split a character list at each non-overlapping `::`, leftmost first
(`str.split('::')`). -/
def splitColons : List Char → List (List Char)
  | [] => [[]]
  | ':' :: ':' :: rest => [] :: splitColons rest
  | c :: rest =>
    match splitColons rest with
    | [] => [[c]]
    | p :: ps => (c :: p) :: ps

/-- Full match of `__ns_full_expr`:
`(?:::)?[a-zA-Z_][a-zA-Z_0-9]*(::[a-zA-Z_][a-zA-Z_0-9]*)*(?:::)?`, via the
`::`-separated parts of the string. -/
def nsFullShape (s : String) : Bool :=
  match splitColons s.toList with
  | [] => false
  | [single] => isIdent single
  | first :: more =>
    let last := more.getLastD first
    let middles := more.dropLast
    (first.isEmpty || isIdent first) &&
    (last.isEmpty || isIdent last) &&
    middles.all isIdent &&
    !(first.isEmpty && last.isEmpty && middles.isEmpty)

/-- May a token extend a compound-name run: a span whose first class is one
of `n`, `nl`, `kt`, `o` and whose string matches the namespace-token
grammar (plain strings and class-less spans stop the extension). -/
def chainable (it : CItem) : Bool :=
  match it with
  | .cspan (c0 :: _) t =>
    (c0 = "n" || c0 = "nl" || c0 = "kt" || c0 = "o") && nsTokenShape t
  | .cspan [] _ => false
  | .cstr _ => false

/-- Is a leaf one of the collected seeds: a span whose class list contains
`n`, `nl` or `kt`. -/
def seedish (it : CItem) : Bool :=
  match it with
  | .cspan cls _ => cls.contains "n" || cls.contains "nl" || cls.contains "kt"
  | .cstr _ => false

/-- Is the item at an index chainable (out of range: no). -/
def chainableAt (block : List CItem) (i : Nat) : Bool :=
  match block.get? i with
  | some it => chainable it
  | none => false

/-- Extend a run leftwards from an index while the previous sibling is
chainable. -/
def extendLo (block : List CItem) : Nat → Nat
  | 0 => 0
  | lo + 1 => if chainableAt block lo then extendLo block lo else lo + 1

/-- Extend a run rightwards while the next sibling is chainable (fuel bounds
the walk; the block length suffices). -/
def extendHi (block : List CItem) : Nat → Nat → Nat
  | 0, hi => hi
  | fuel + 1, hi => if chainableAt block (hi + 1) then extendHi block fuel (hi + 1) else hi

/-- Drop leading and trailing `::` tokens from an index run. -/
def stripSeps (block : List CItem) (idxs : List Nat) : List Nat :=
  let isSep := fun j =>
    match block.get? j with
    | some it => citemText it = "::"
    | none => true
  ((idxs.dropWhile isSep).reverse.dropWhile isSep).reverse

/-- The compound-name collection loop: for each unvisited seed in document
order, extend left and right across chainable siblings, mark the stretch
visited, validate the concatenation against the compound grammar, trim bare
separators, and keep the surviving run (as indices into the block). -/
def collectRuns (block : List CItem) : List (List Nat) :=
  let len := block.length
  let step := fun (st : List Nat × List (List Nat)) (i : Nat) =>
    let seed := match block.get? i with
      | some it => seedish it
      | none => false
    if seed && !st.1.contains i then
      let lo := extendLo block i
      let hi := extendHi block len i
      let idxs := (List.range (hi + 1 - lo)).map (fun k => lo + k)
      let visited2 := st.1 ++ idxs
      let items := idxs.filterMap (fun j => block.get? j)
      let full := String.join (items.map citemText)
      if nsFullShape full then
        let stripped := stripSeps block idxs
        if stripped.isEmpty then (visited2, st.2) else (visited2, st.2 ++ [stripped])
      else (visited2, st.2)
    else st
  ((List.range len).foldl step ([], [])).2

/-- `concatTexts` over position-carrying tokens. -/
def concatTextsIdx (tags : List (Nat × TagSpan)) : String :=
  String.join (tags.map (fun t => t.2.text))

/-- `splitTrailingSeps` over position-carrying tokens. -/
def splitTrailingSepsIdx (tags : List (Nat × TagSpan)) :
    List (Nat × TagSpan) × List (Nat × TagSpan) :=
  let rev := tags.reverse
  ((rev.dropWhile (fun t => t.2.text = "::")).reverse,
   (rev.takeWhile (fun t => t.2.text = "::")).reverse)

/-- `nsSearch` over position-carrying tokens. -/
def nsSearchIdxAux (isNs : String → Bool) :
    Nat → List (Nat × TagSpan) → Option (List (Nat × TagSpan) × List (Nat × TagSpan))
  | 0, _ => none
  | fuel + 1, tags =>
    if tags.isEmpty then none
    else if isNs (concatTextsIdx tags) then some (tags, [])
    else
      match tags.getLast? with
      | none => none
      | some last =>
        let p := splitTrailingSepsIdx tags.dropLast
        match nsSearchIdxAux isNs fuel p.1 with
        | none => none
        | some (core, dropped) => some (core, dropped ++ p.2 ++ [last])

/-- `nsSearch` over position-carrying tokens, with enough fuel. -/
def nsSearchIdx (isNs : String → Bool) (tags : List (Nat × TagSpan)) :
    Option (List (Nat × TagSpan) × List (Nat × TagSpan)) :=
  nsSearchIdxAux isNs (tags.length + 1) tags

/-- `__colourize_compound_def` over position-carrying tokens, returning the
document updates (`none` destroys a token) and the flag; this is the same
classifier as `colourize`, keeping the block positions so the block-level
fixer can write the result back. -/
def colourizeIdxAux (isEnum isType isNs : String → Bool) :
    Nat → List (Nat × TagSpan) → List (Nat × Option TagSpan) × Bool
  | 0, _ => ([], false)
  | fuel + 1, tags =>
    if tags.isEmpty then ([], false)
    else
      let full := concatTextsIdx tags
      if isEnum full then
        match tags.getLast? with
        | none => ([], false)
        | some last =>
          let p := splitTrailingSepsIdx tags.dropLast
          let marked := (last.1, some { last.2 with classes := html_set_class "ne" })
          if p.1.isEmpty then ([marked], true)
          else
            let r := colourizeIdxAux isEnum isType isNs fuel p.1
            (r.1 ++ [marked], true)
      else if isType full then
        match tags.getLast? with
        | none => ([], false)
        | some last =>
          let p := splitTrailingSepsIdx tags.dropLast
          let marked := (last.1, some { last.2 with classes := html_set_class "ut" })
          if p.1.isEmpty then ([marked], true)
          else
            let r := colourizeIdxAux isEnum isType isNs fuel p.1
            (r.1 ++ [marked], true)
      else
        match nsSearchIdx isNs tags with
        | none => ([], false)
        | some (core, _dropped) =>
          match core with
          | [] => ([], false)
          | first :: others =>
            let removed := html_remove_classes first.2.classes ["n", "nl", "kt"]
            let newCls := if removed.2 then (html_add_class removed.1 "ns").1 else removed.1
            ([(first.1, some ⟨newCls, concatTextsIdx core⟩)] ++
              others.map (fun t => (t.1, (none : Option TagSpan))), true)

/-- `__colourize_compound_def` over position-carrying tokens, with enough
fuel. -/
def colourizeIdx (isEnum isType isNs : String → Bool) (tags : List (Nat × TagSpan)) :
    List (Nat × Option TagSpan) × Bool :=
  colourizeIdxAux isEnum isType isNs (tags.length + 1) tags

/-- Current spans of a run, read from the working block state (destroyed or
non-span slots are absent). -/
def gatherRun (working : List (Option CItem)) (idxs : List Nat) : List (Nat × TagSpan) :=
  idxs.filterMap (fun i =>
    match working.getD i none with
    | some (.cspan cls t) => some (i, (⟨cls, t⟩ : TagSpan))
    | _ => none)

/-- Write a classification result back into the working block state. -/
def applyUpdates (working : List (Option CItem)) (ups : List (Nat × Option TagSpan)) :
    List (Option CItem) :=
  ups.foldl (fun w u =>
    w.set u.1 (match u.2 with
      | some ts => some (.cspan ts.classes ts.text)
      | none => none)) working

/-- The compound-name sub-step of one block pass: collect the runs, then
classify each in turn against the live block state. -/
def compoundPass (isEnum isType isNs : String → Bool) (block : List CItem) :
    List CItem × Bool :=
  let runs := collectRuns block
  let start : List (Option CItem) × Bool := (block.map some, false)
  let r := runs.foldl (fun st idxs =>
    let items := gatherRun st.1 idxs
    if items.isEmpty then st
    else
      let c := colourizeIdx isEnum isType isNs items
      (applyUpdates st.1 c.1, st.2 || c.2)) start
  (r.1.filterMap id, r.2)

/-- The literal-suffix sub-step: a span of class `n` directly after a string
literal and matching the string-suffix pattern becomes `sa`; one directly
after a numeric literal and matching the numeric-suffix pattern inherits the
numeric class.  The walk reads the already-rewritten previous sibling, as the
source does. -/
def litPass (isStrLit isNumLit : String → Bool) :
    Option CItem → List CItem → List CItem × Bool
  | _, [] => ([], false)
  | prev, it :: rest =>
    let step : CItem × Bool :=
      match it, prev with
      | .cspan cls t, some (.cspan pcls _) =>
        if cls.contains "n" then
          if pcls.contains "s" && isStrLit t then (.cspan (html_set_class "sa") t, true)
          else
            match pcls.head? with
            | some ph =>
              if (ph = "mf" || ph = "mi" || ph = "mb" || ph = "mh") && isNumLit t then
                (.cspan (html_set_class ph) t, true)
              else (it, false)
            | none => (it, false)
        else (it, false)
      | _, _ => (it, false)
    let r := litPass isStrLit isNumLit (some step.1) rest
    (step.1 :: r.1, step.2 || r.2)

/-- The macro sub-step: with a nonempty macro pattern list, spans of class
`n`, `nl`, `kt`, `nc` or `nf` whose whole text matches some macro pattern are
re-classed `m`. -/
def macroPass (macs : List (String → Bool)) (l : List CItem) : List CItem × Bool :=
  if macs.isEmpty then (l, false)
  else
    let step := fun (it : CItem) =>
      match it with
      | .cspan cls t =>
        if (cls.contains "n" || cls.contains "nl" || cls.contains "kt" ||
            cls.contains "nc" || cls.contains "nf") && macs.any (fun f => f t) then
          ((.cspan (html_set_class "m") t : CItem), true)
        else (it, false)
      | .cstr _ => (it, false)
    let r := l.map step
    (r.map (fun x => x.1), r.any (fun x => x.2))

/-- The keyword vocabulary of `CodeBlockFix.__keywords`. -/
def cppKeywords : List String :=
  ["alignas", "alignof", "bool", "char", "char16_t", "char32_t", "char8_t",
   "class", "const", "consteval", "constexpr", "constinit", "do", "double",
   "else", "explicit", "false", "float", "if", "inline", "int", "long",
   "mutable", "noexcept", "short", "signed", "sizeof", "struct", "template",
   "true", "typename", "unsigned", "void", "wchar_t", "while"]

/-- The keyword-repair sub-step: spans of class `nf`, `nb`, `kt`, `ut` or
`kr` whose string is a language keyword are re-classed `k`. -/
def keywordPass (l : List CItem) : List CItem × Bool :=
  let step := fun (it : CItem) =>
    match it with
    | .cspan cls t =>
      if (cls.contains "nf" || cls.contains "nb" || cls.contains "kt" ||
          cls.contains "ut" || cls.contains "kr") && cppKeywords.contains t then
        ((.cspan (html_set_class "k") t : CItem), true)
      else (it, false)
    | .cstr _ => (it, false)
  let r := l.map step
  (r.map (fun x => x.1), r.any (fun x => x.2))

/-- `tag.smooth()`: coalesce adjacent plain strings (fuel-bounded; every step
shortens the list, so its length bounds the step count). -/
def smoothAux : Nat → List CItem → List CItem
  | 0, l => l
  | fuel + 1, .cstr a :: .cstr b :: rest => smoothAux fuel (.cstr (a ++ b) :: rest)
  | fuel + 1, it :: rest => it :: smoothAux fuel rest
  | _ + 1, [] => []

/-- `tag.smooth()` on a block. -/
def smoothBlock (l : List CItem) : List CItem :=
  smoothAux (l.length + 1) l

/-- The compiled pattern sets and macro patterns `CodeBlockFix` consults. -/
structure CBParams where
  isEnum : String → Bool
  isType : String → Bool
  isNs : String → Bool
  isStrLit : String → Bool
  isNumLit : String → Bool
  macs : List (String → Bool)

/-- One phase-one pass over a single block: the five sub-steps in source
order, smoothing when the block changed. -/
def blockPass (P : CBParams) (block : List CItem) : List CItem × Bool :=
  let r1 := stitchComments block
  let r2 := compoundPass P.isEnum P.isType P.isNs r1.1
  let r3 := litPass P.isStrLit P.isNumLit none r2.1
  let r4 := macroPass P.macs r3.1
  let r5 := keywordPass r4.1
  let c := r1.2 || r2.2 || r3.2 || r4.2 || r5.2
  (if c then smoothBlock r5.1 else r5.1, c)

/-- One phase-one pass over all blocks. -/
def phase1Pass (P : CBParams) (blocks : List (List CItem)) :
    List (List CItem) × Bool :=
  let r := blocks.map (blockPass P)
  (r.map (fun x => x.1), r.any (fun x => x.2))

/-- The phase-one fixpoint loop (`while changed_this_pass`), with fuel; the
returned flag is true when any pass changed a block. -/
def phase1Loop (P : CBParams) : Nat → List (List CItem) → List (List CItem) × Bool
  | 0, bs => (bs, false)
  | fuel + 1, bs =>
    let r := phase1Pass P bs
    if r.2 then
      let r2 := phase1Loop P fuel r.1
      (r2.1, true)
    else (r.1, false)

/-- An inline `code` element of class `m-code`/`m-console` as phase two sees
it: its tag name, class list, parent and grandparent names, whether the rest
of the parent's contents is blank, and whether the parent was destroyed. -/
structure InlineCtx where
  name : String
  classes : List String
  parentName : String
  grandName : String
  parentRestBlank : Bool
  parentGone : Bool
deriving DecidableEq, Repr

/-- One phase-two pass: an element whose parent is a `p` inside a `div` is
renamed `pre` and moved before the parent (its parent becomes the `div`; the
emptied `p` is destroyed). -/
def promotePass (l : List InlineCtx) : List InlineCtx × Bool :=
  let step := fun (c : InlineCtx) =>
    if c.parentName = "p" && c.grandName = "div" then
      ({ c with
          name := "pre"
          parentName := c.grandName
          grandName := ""
          parentGone := c.parentRestBlank }, true)
    else (c, false)
  let r := l.map step
  (r.map (fun x => x.1), r.any (fun x => x.2))

/-- The phase-two fixpoint loop, with fuel; the returned flag is the value
`CodeBlockFix.__call__` returns. -/
def phase2Loop : Nat → List InlineCtx → List InlineCtx × Bool
  | 0, l => (l, false)
  | fuel + 1, l =>
    let r := promotePass l
    if r.2 then
      let r2 := phase2Loop fuel r.1
      (r2.1, true)
    else (r.1, false)

/-- A document as `CodeBlockFix` sees it: its `m-code` blocks and the inline
occurrences phase two collected. -/
structure CBDoc where
  blocks : List (List CItem)
  inlines : List InlineCtx
deriving DecidableEq

/-- `CodeBlockFix.__call__`: phase one runs first and accumulates its own
changed flag, which the source then overwrites with `changed = False`; the
returned flag is phase two's alone. -/
def codeBlockFixCall (P : CBParams) (fuel1 fuel2 : Nat) (d : CBDoc) : CBDoc × Bool :=
  let r1 := phase1Loop P fuel1 d.blocks
  let r2 := phase2Loop fuel2 d.inlines
  (⟨r1.1, r2.1⟩, r2.2)

/-- The inline contexts with their parent still eligible for promotion. -/
def countPromotable (l : List InlineCtx) : Nat :=
  l.countP (fun c => c.parentName = "p" && c.grandName = "div")

/-! ### Concrete instances used by the closed theorems below -/

/-- An output directory containing no files. -/
def cexNoFiles : String → Bool := fun _ => false

/-- A dead-link anchor (no fragment) sitting in a paragraph. -/
def cexAnchorP : DAnchor := ⟨"other.html", ["m-doc"], some "x", "p", none⟩

/-- A one-anchor document for the pipeline instances. -/
def cexDoc : DLDoc := ⟨[cexAnchorP]⟩

/-- The document after its first dead-link pass: the `m-doc` class is gone,
nothing else moved. -/
def cexDoc1 : DLDoc := ⟨[⟨"other.html", [], some "x", "p", none⟩]⟩

/-- `DeadLinksFix` over the empty output directory. -/
def cexDeadFixer : Fixer DLDoc := deadLinksFixer cexNoFiles

/-- A dead-link anchor with a fragment, sitting in a paragraph. -/
def cexAnchorFrag : DAnchor := ⟨"other.html#deadbeef", ["m-doc"], some "txt", "p", none⟩

/-- A dead-link anchor under a `dt`, with no fragment and no parent id. -/
def cexAnchorDt : DAnchor := ⟨"dead.html", ["m-doc"], some "S", "dt", none⟩

/-- An index page whose article holds a banner image and its heading. -/
def cexIndex0 : IPDoc := ⟨[.helem "img" [] [] [], .helem "h1" [] [] [.htext "T"]]⟩

/-- The same page after the first pipeline run promoted the banner over the
heading. -/
def cexIndex1 : IPDoc := ⟨[.helem "img" [] [] []]⟩

/-- Classifier sets for the classification scenario: `a::b::C` is a known
type. -/
def cexTypes : String → Bool := typeMatcher ["a::b::C"]

/-- `a` and `a::b` are known namespaces. -/
def cexNs : String → Bool := typeMatcher ["a", "a::b"]

/-- No known enum values. -/
def cexEnumsNone : String → Bool := enumMatcher []

/-- `a::b::C::Value` is a known enum value. -/
def cexEnumsVal : String → Bool := enumMatcher ["a::b::C::Value"]

/-- The token run `a::b::C::Value`. -/
def cexRun : List TagSpan :=
  [⟨["n"], "a"⟩, ⟨["o"], "::"⟩, ⟨["n"], "b"⟩, ⟨["o"], "::"⟩,
   ⟨["n"], "C"⟩, ⟨["o"], "::"⟩, ⟨["n"], "Value"⟩]

/-- A raw emoji map holding the alias targets (the GitHub table always
carries both). -/
def cexEmojiRaw : List (String × String) :=
  [("ice_cream", "e/unicode/1F366.png"), ("information_source", "e/unicode/2139.png")]

/-- The processed table `buildEmojis` produces from `cexEmojiRaw`. -/
def cexEmojiTable : EmojiTable :=
  ⟨[("ice_cream", .entry 127846 "e/unicode/1F366.png"),
    ("information_source", .entry 8505 "e/unicode/2139.png"),
    ("sundae", .entry 127846 "e/unicode/1F366.png"),
    ("info", .entry 8505 "e/unicode/2139.png"),
    ("__codepoints", .cps [127846, 8505]),
    ("__processed", .flag true)],
   [127846, 8505]⟩

/-- The contents of a `span.m-doc-wrap` trailing element: one span. -/
def cexWrapEnd : List HNode := [.helem "span" [] [] [.htext ")"]]

/-- An auto-link pattern matching `foo` in `see foo`, targeting an external
URI. -/
def cexAutoExpr : AutoExpr :=
  ⟨fun s => if s = "see foo" then [.plain "see ", .hit "foo"] else [.plain s], "http://u"⟩

/-- A paragraph holding matchable text and an existing documentation link. -/
def cexAutoDoc : List HNode :=
  [.helem "p" [] [] [.htext "see foo", .helem "a" ["m-doc"] [] [.htext "bar"]]]

/-- Pattern sets under which no classification fires. -/
def cexCBParams : CBParams :=
  ⟨fun _ => false, fun _ => false, fun _ => false, fun _ => false, fun _ => false, []⟩

/-- A document whose only change is a keyword repair: a `span.nf` holding
`if` and no inline occurrence. -/
def cexCBDoc : CBDoc := ⟨[[.cspan ["nf"] "if"]], []⟩

/-! ## Theorems

Helper lemmas come first, then one theorem per claim (with its witnesses and
counterexamples). -/

/-- The fixer loop succeeds exactly when the fixer trace does, with the
returned flag the disjunction of the starting flag and the per-fixer
flags. -/
theorem runFixes_eq_ok_iff {α : Type} (smooth : α → α) :
    ∀ (fixes : List (Fixer α)) (d : α) (c : Bool) (dfin : α) (b : Bool),
    runFixes smooth fixes d c = .ok dfin b ↔
      ∃ flags, runTrace smooth fixes d = some (dfin, flags) ∧ b = (c || flags.any id)
  | [], d, c, dfin, b => by
    constructor
    · intro h
      cases h
      exact ⟨[], rfl, by simp⟩
    · rintro ⟨flags, hf, hb⟩
      simp only [runTrace, Option.some.injEq, Prod.mk.injEq] at hf
      obtain ⟨h1, h2⟩ := hf
      subst h1
      subst h2
      simp only [List.any_nil, Bool.or_false] at hb
      subst hb
      rfl
  | fix :: rest, d, c, dfin, b => by
    cases hf : fix d with
    | error e =>
      constructor
      · intro h
        simp only [runFixes, hf] at h
        cases h
      · rintro ⟨flags, htr, _⟩
        simp only [runTrace, hf] at htr
        cases htr
    | ok p =>
      obtain ⟨d2, fired⟩ := p
      have hrun : runFixes smooth (fix :: rest) d c =
          runFixes smooth rest (if fired then smooth d2 else d2) (c || fired) := by
        simp only [runFixes, hf]
        cases fired <;> simp
      have htr : runTrace smooth (fix :: rest) d =
          (match runTrace smooth rest (if fired then smooth d2 else d2) with
           | none => none
           | some (dfin2, flags) => some (dfin2, fired :: flags)) := by
        simp only [runTrace, hf]
      rw [hrun, htr, runFixes_eq_ok_iff smooth rest _ (c || fired) dfin b]
      cases hr : runTrace smooth rest (if fired then smooth d2 else d2) with
      | none => simp
      | some q =>
        obtain ⟨dq, fq⟩ := q
        constructor
        · rintro ⟨flags, h1, h2⟩
          simp only [Option.some.injEq, Prod.mk.injEq] at h1
          obtain ⟨hd1, hf1⟩ := h1
          subst hd1
          subst hf1
          exact ⟨fired :: fq, rfl, by rw [h2]; simp [Bool.or_assoc]⟩
        · rintro ⟨flags, h1, h2⟩
          simp only [Option.some.injEq, Prod.mk.injEq] at h1
          obtain ⟨hd1, hf1⟩ := h1
          subst hd1
          subst hf1
          exact ⟨fq, rfl, by rw [h2]; simp [Bool.or_assoc]⟩

/-- The fixer loop raises exactly when the trace does. -/
theorem runFixes_err_iff {α : Type} (smooth : α → α) :
    ∀ (fixes : List (Fixer α)) (d : α) (c : Bool),
    (∃ b, runFixes smooth fixes d c = .err b) ↔ runTrace smooth fixes d = none
  | [], d, c => by simp [runFixes, runTrace]
  | fix :: rest, d, c => by
    cases hf : fix d with
    | error e => simp [runFixes, runTrace, hf]
    | ok p =>
      obtain ⟨d2, fired⟩ := p
      have hrun : runFixes smooth (fix :: rest) d c =
          runFixes smooth rest (if fired then smooth d2 else d2) (c || fired) := by
        simp only [runFixes, hf]
        cases fired <;> simp
      have htr : runTrace smooth (fix :: rest) d =
          (match runTrace smooth rest (if fired then smooth d2 else d2) with
           | none => none
           | some (dfin2, flags) => some (dfin2, fired :: flags)) := by
        simp only [runTrace, hf]
      rw [hrun, htr, runFixes_err_iff smooth rest _ (c || fired)]
      cases runTrace smooth rest (if fired then smooth d2 else d2) with
      | none => simp
      | some q => obtain ⟨dq, fq⟩ := q; simp

/-- C2: a document is flushed at most once per `postprocess_file` run,
exactly when the abort flag was clear, parsing succeeded, every fixer
completed without raising, and at least one fixer reported a change;
a set abort flag stops the run before any work; a parse error or a fixer
error leaves the document unflushed and sets the abort flag (so subsequent
`postprocess_file` calls do not start). -/
theorem c2_flush_discipline {α : Type} (smooth : α → α) (te : Bool)
    (parse : Except Unit α) (fixes : List (Fixer α)) :
    (postprocess_file smooth te parse fixes).flushes ≤ 1 ∧
    ((postprocess_file smooth te parse fixes).flushes = 1 ↔
      (te = false ∧ ∃ d0 dfin flags, parse = .ok d0 ∧
        runTrace smooth fixes d0 = some (dfin, flags) ∧ flags.any id = true)) ∧
    (te = true → postprocess_file smooth te parse fixes = ⟨none, 0, true, false⟩) ∧
    (te = false → parse = .error () →
      (postprocess_file smooth te parse fixes).flushes = 0 ∧
      (postprocess_file smooth te parse fixes).threadErrorOut = true) ∧
    (∀ d0, te = false → parse = .ok d0 → runTrace smooth fixes d0 = none →
      (postprocess_file smooth te parse fixes).flushes = 0 ∧
      (postprocess_file smooth te parse fixes).threadErrorOut = true) := by
  cases te with
  | true =>
    refine ⟨by simp [postprocess_file], ?_, ?_, ?_, ?_⟩
    · simp [postprocess_file]
    · intro _; simp [postprocess_file]
    · intro h; cases h
    · intro d0 h; cases h
  | false =>
    cases parse with
    | error e =>
      refine ⟨by simp [postprocess_file], ?_, ?_, ?_, ?_⟩
      · simp [postprocess_file]
      · intro h; cases h
      · intro _ _; simp [postprocess_file]
      · intro d0 _ h; cases h
    | ok d0 =>
      cases hr : runFixes smooth fixes d0 false with
      | err cflag =>
        have htr : runTrace smooth fixes d0 = none :=
          (runFixes_err_iff smooth fixes d0 false).mp ⟨cflag, hr⟩
        refine ⟨by simp [postprocess_file, hr], ?_, ?_, ?_, ?_⟩
        · simp only [postprocess_file, hr]
          constructor
          · intro h; cases h
          · rintro ⟨-, d1, dfin, flags, hp, htr2, -⟩
            cases hp
            rw [htr] at htr2
            cases htr2
        · intro h; cases h
        · intro _ h; cases h
        · intro d1 _ hp _
          cases hp
          simp [postprocess_file, hr]
      | ok dfin changed =>
        obtain ⟨flags, htr, hb⟩ :=
          (runFixes_eq_ok_iff smooth fixes d0 false dfin changed).mp hr
        simp only [Bool.false_or] at hb
        refine ⟨?_, ?_, ?_, ?_, ?_⟩
        · simp only [postprocess_file, hr]
          cases changed <;> simp
        · simp only [postprocess_file, hr]
          cases hc : changed with
          | true =>
            constructor
            · intro _
              exact ⟨by simp, d0, dfin, flags, rfl, htr, by rw [hc] at hb; exact hb.symm⟩
            · intro _; simp
          | false =>
            constructor
            · intro h; simp at h
            · rintro ⟨-, d1, dfin2, flags2, hp, htr2, hany⟩
              cases hp
              rw [htr] at htr2
              cases htr2
              rw [hc] at hb
              rw [hany] at hb
              cases hb
        · intro h; cases h
        · intro _ h; cases h
        · intro d1 _ hp htr2
          cases hp
          rw [htr] at htr2
          cases htr2

/-- Witness for C2 at a concrete run: one fixer that reports a change on a
`Nat` document; the run flushes once. -/
theorem c2_flush_discipline_witness :
    (postprocess_file id false (.ok (0 : Nat)) [fun n => .ok (n + 1, true)]).flushes = 1 :=
  (c2_flush_discipline id false (.ok (0 : Nat)) [fun n => .ok (n + 1, true)]).2.1.mpr
    ⟨rfl, 0, 1, [true], rfl, rfl, rfl⟩

/-- The fixer loop traverses an appended sequence once, in order: the second
part runs exactly where the first part stopped. -/
theorem runFixes_append {α : Type} (smooth : α → α) :
    ∀ (l1 l2 : List (Fixer α)) (d : α) (c : Bool),
    runFixes smooth (l1 ++ l2) d c =
      (match runFixes smooth l1 d c with
       | .err b => .err b
       | .ok d2 b => runFixes smooth l2 d2 b)
  | [], l2, d, c => by simp [runFixes]
  | fix :: rest, l2, d, c => by
    simp only [List.cons_append, runFixes]
    cases fix d with
    | error e => rfl
    | ok p =>
      obtain ⟨d2, fired⟩ := p
      cases fired <;> simp [runFixes_append smooth rest l2]

/-- On the one-dead-anchor document after its first pass, the dead-link
fixer reports a change on every further pass without modifying the
document. -/
theorem deadFixer_persistent_flag :
    runFixes id [cexDeadFixer] cexDoc1 false = .ok cexDoc1 true := by decide

/-- The specification's repeat-until-no-change loop never terminates on the
stabilised one-dead-anchor document. -/
theorem pipelineSpecLoop_diverges_doc1 :
    ∀ fuel, pipelineSpecLoop id [cexDeadFixer] fuel cexDoc1 = none := by
  intro fuel
  induction fuel with
  | zero => rfl
  | succ n ih =>
    show (match runFixes id [cexDeadFixer] cexDoc1 false with
          | .err _ => none
          | .ok doc2 changed =>
            if changed then pipelineSpecLoop id [cexDeadFixer] n doc2 else some doc2) = none
    rw [deadFixer_persistent_flag]
    simpa using ih

/-- C1, counterexample: `postprocess_file` performs a single pass over the
fixer sequence and flushes, yet a further whole pass over its output still
reports a change — the run did not end at a fixpoint of the fixer
sequence in the claim's sense (a pass yielding no change). -/
theorem c1_counterexample :
    postprocess_file id false (.ok cexDoc) [cexDeadFixer] =
      ⟨some cexDoc1, 1, false, true⟩ ∧
    runFixes id [cexDeadFixer] cexDoc1 false = .ok cexDoc1 true :=
  ⟨by decide, by decide⟩

/-- C1, amended: the pipeline applies the ordered fixer sequence exactly once
per document (appended sequences compose in one ordered pass; there is no
repetition), and its output need not satisfy a no-change pass: the dead-link
fixer reports a change on every pass over a dead link whose parent is neither
a `dt` nor a `div`, so the claimed repeat-until-quiescence loop would never
terminate on such a document. -/
theorem c1_single_pass_no_fixpoint :
    (∀ (α : Type) (smooth : α → α) (l1 l2 : List (Fixer α)) (d : α) (c : Bool),
      runFixes smooth (l1 ++ l2) d c =
        (match runFixes smooth l1 d c with
         | .err b => .err b
         | .ok d2 b => runFixes smooth l2 d2 b)) ∧
    (postprocess_file id false (.ok cexDoc) [cexDeadFixer]).doc = some cexDoc1 ∧
    runFixes id [cexDeadFixer] cexDoc1 false = .ok cexDoc1 true ∧
    (∀ fuel, pipelineSpecLoop id [cexDeadFixer] fuel cexDoc = none) := by
  refine ⟨fun α smooth l1 l2 d c => runFixes_append smooth l1 l2 d c, by decide,
    deadFixer_persistent_flag, ?_⟩
  intro fuel
  cases fuel with
  | zero => rfl
  | succ n =>
    show (match runFixes id [cexDeadFixer] cexDoc false with
          | .err _ => none
          | .ok doc2 changed =>
            if changed then pipelineSpecLoop id [cexDeadFixer] n doc2 else some doc2) = none
    rw [show runFixes id [cexDeadFixer] cexDoc false = .ok cexDoc1 true from by decide]
    simpa using pipelineSpecLoop_diverges_doc1 n

/-- C3 (code bug): the first pipeline run on an index page with a banner
image promotes the banner over the heading; running the pipeline again on
that output makes `IndexPageFix` find the image but no `h1`, so
`None.replace_with` raises — the second run aborts (abort flag set, nothing
flushed) instead of being a clean no-change fixpoint. -/
theorem c3_rerun_raises :
    indexPageFix [] "index.html" cexIndex0 = .ok (cexIndex1, true) ∧
    indexPageFix [] "index.html" cexIndex1 = .error () ∧
    postprocess_file id false (.ok cexIndex1) [indexPageFixer [] "index.html"] =
      ⟨none, 0, true, false⟩ :=
  ⟨by decide, by decide, by decide⟩

/-- C7, counterexample: a dead local link whose anchor sits in a paragraph
(not a `dt` or `div`) only loses its `m-doc` class; no fallback id is
assigned and the `href` is left pointing at the missing file, against the
claim that every such anchor gains a stable fallback id. -/
theorem c7_counterexample :
    deadLinksFixAnchor cexNoFiles cexAnchorFrag =
      .ok (⟨"other.html#deadbeef", [], some "txt", "p", none⟩, true) := by decide

/-- C7, amended: for a dead local link, the `m-doc` class is always stripped,
but a fallback id is assigned only when the anchor's parent is a `dt` or a
`div`, and only from the parent's existing id if present, else the nonempty
fragment (both trivially identical across runs); when both are absent the
hash fallback never produces an id: `multi_sha256` starts with
`hashlib.sha256()` and `hashlib` is never imported, so the branch raises
`NameError` and the run aborts. -/
theorem c7_fallback_id (ex : String → Bool)
    (a : DAnchor) (file : String) (frag : Option String)
    (hm : deadHrefMatch a.href = some (file, frag)) (hex : ex file = false) :
    (a.parentName ≠ "dt" → a.parentName ≠ "div" →
      deadLinksFixAnchor ex a =
        .ok ({ a with classes := (html_remove_class a.classes "m-doc").1 }, true)) ∧
    (∀ pid, (a.parentName = "dt" ∨ a.parentName = "div") → a.parentId = some pid →
      deadLinksFixAnchor ex a =
        .ok ({ a with
                classes := (html_add_class (html_remove_class a.classes "m-doc").1
                  "m-doc-self").1,
                href := "#" ++ pid }, true)) ∧
    (∀ f, (a.parentName = "dt" ∨ a.parentName = "div") → a.parentId = none →
      frag = some f → f ≠ "" →
      deadLinksFixAnchor ex a =
        .ok ({ a with
                classes := (html_add_class (html_remove_class a.classes "m-doc").1
                  "m-doc-self").1,
                parentId := some f, href := "#" ++ f }, true)) ∧
    ((a.parentName = "dt" ∨ a.parentName = "div") → a.parentId = none →
      (frag = none ∨ frag = some "") →
      deadLinksFixAnchor ex a = .error ()) := by
  have hbase : deadLinksFixAnchor ex a =
      (let a1 : DAnchor := { a with classes := (html_remove_class a.classes "m-doc").1 }
       if a1.parentName = "dt" || a1.parentName = "div" then
        let a2 : DAnchor := { a1 with classes := (html_add_class a1.classes "m-doc-self").1 }
        match a2.parentId with
        | some pid => .ok ({ a2 with href := "#" ++ pid }, true)
        | none =>
          match (match frag with
                 | some f => if f.isEmpty then none else some f
                 | none => none) with
          | some f => .ok ({ a2 with parentId := some f, href := "#" ++ f }, true)
          | none => .error ()
       else .ok (a1, true)) := by
    simp only [deadLinksFixAnchor, hm, hex]
    rfl
  refine ⟨?_, ?_, ?_, ?_⟩
  · intro h1 h2
    rw [hbase]
    simp [h1, h2]
  · intro pid hp hpid
    rw [hbase]
    rcases hp with hp | hp <;> simp [hp, hpid]
  · intro f hp hpid hf hne
    rw [hbase]
    have hfe : f.isEmpty = false := by
      cases hfe : f.isEmpty
      · rfl
      · exact absurd (by simpa [String.isEmpty_iff] using hfe) hne
    rcases hp with hp | hp <;> simp [hp, hpid, hf, hfe]
  · intro hp hpid hfr
    rw [hbase]
    rcases hp with hp | hp <;> rcases hfr with hfr | hfr <;>
      simp [hp, hpid, hfr, String.isEmpty_iff]

/-- Witness for C7: a dead link under a `dt` with no parent id and no
fragment reaches the hash fallback and errors (the `NameError`), while one
with a fragment gets that fragment as its id. -/
theorem c7_fallback_id_witness :
    deadLinksFixAnchor cexNoFiles cexAnchorDt = .error () ∧
    deadLinksFixAnchor cexNoFiles
        (⟨"dead.html#frag", ["m-doc"], some "S", "dt", none⟩ : DAnchor) =
      .ok (⟨"#frag", ["m-doc-self"], some "S", "dt", some "frag"⟩, true) := by
  constructor
  · exact (c7_fallback_id cexNoFiles cexAnchorDt "dead.html" none
      (by decide) (by decide)).2.2.2 (Or.inl rfl) rfl (Or.inl rfl)
  · have h := (c7_fallback_id cexNoFiles
      (⟨"dead.html#frag", ["m-doc"], some "S", "dt", none⟩ : DAnchor)
      "dead.html" (some "frag") (by decide) (by decide)).2.2.1 "frag"
      (Or.inl rfl) rfl rfl (by decide)
    exact h.trans (by decide)

/-- C4, counterexample: on the run `a::b::C::Value` with `a::b::C` a known
type but the enum value unknown, the classifier does not mark the
longest known-type prefix as a type — it falls through to the namespace
search, collapses `a::b` into a namespace token and leaves `C` and `Value`
untouched; no token is classified `ut`. -/
theorem c4_counterexample :
    colourize cexEnumsNone cexTypes cexNs cexRun =
      ([⟨["ns"], "a::b"⟩, ⟨["o"], "::"⟩, ⟨["n"], "C"⟩, ⟨["o"], "::"⟩, ⟨["n"], "Value"⟩],
        true) ∧
    ((colourize cexEnumsNone cexTypes cexNs cexRun).1.all
      (fun t => t.classes ≠ html_set_class "ut")) = true :=
  ⟨by decide, by decide⟩

/-- C4, amended: on a compound run, a full-text enum match marks the trailing
token `ne` and recurses after stripping separators, and a full-text type
match likewise marks the trailing token `ut`; when neither matches the full
text, trailing tokens are dropped until the remaining prefix matches a known
namespace, which collapses into one `ns` token — the type test is never
applied to a strict prefix.  For the scenario run `a::b::C::Value`: with the
enum value known, the trailing token is marked `ne`, `C` is marked `ut` and
`a::b` collapses to `ns`; with the enum value absent, only the namespace
collapse happens. -/
theorem c4_classification :
    (colourize cexEnumsVal cexTypes cexNs cexRun =
      ([⟨["ns"], "a::b"⟩, ⟨["o"], "::"⟩, ⟨["ut"], "C"⟩, ⟨["o"], "::"⟩, ⟨["ne"], "Value"⟩],
        true)) ∧
    (colourize cexEnumsNone cexTypes cexNs cexRun =
      ([⟨["ns"], "a::b"⟩, ⟨["o"], "::"⟩, ⟨["n"], "C"⟩, ⟨["o"], "::"⟩, ⟨["n"], "Value"⟩],
        true)) ∧
    (∀ (isEnum isType isNs : String → Bool) (tags : List TagSpan),
      tags ≠ [] → isEnum (concatTexts tags) = true →
      (colourize isEnum isType isNs tags).2 = true ∧
      (colourize isEnum isType isNs tags).1.getLast? =
        tags.getLast?.map (fun last => { last with classes := html_set_class "ne" })) ∧
    (∀ (isEnum isType isNs : String → Bool) (tags : List TagSpan),
      tags ≠ [] → isEnum (concatTexts tags) = false →
      isType (concatTexts tags) = true →
      (colourize isEnum isType isNs tags).2 = true ∧
      (colourize isEnum isType isNs tags).1.getLast? =
        tags.getLast?.map (fun last => { last with classes := html_set_class "ut" })) := by
  refine ⟨by decide, by decide, ?_, ?_⟩
  · intro isEnum isType isNs tags hne he
    have hempty : tags.isEmpty = false := by
      cases tags with
      | nil => exact absurd rfl hne
      | cons x xs => rfl
    obtain ⟨last, hlast⟩ : ∃ last, tags.getLast? = some last := by
      cases tags with
      | nil => exact absurd rfl hne
      | cons x xs => exact ⟨(x :: xs).getLast (by simp), List.getLast?_eq_getLast _ _⟩
    have hlen : tags.length + 1 = Nat.succ tags.length := rfl
    simp only [colourize, colourizeAux, hempty, he, hlast, Bool.false_eq_true, if_false,
      if_true, reduceIte]
    constructor
    · split <;> rfl
    · split <;> simp [hlast, List.getLast?_concat]
  · intro isEnum isType isNs tags hne he ht
    have hempty : tags.isEmpty = false := by
      cases tags with
      | nil => exact absurd rfl hne
      | cons x xs => rfl
    obtain ⟨last, hlast⟩ : ∃ last, tags.getLast? = some last := by
      cases tags with
      | nil => exact absurd rfl hne
      | cons x xs => exact ⟨(x :: xs).getLast (by simp), List.getLast?_eq_getLast _ _⟩
    simp only [colourize, colourizeAux, hempty, he, ht, hlast, Bool.false_eq_true, if_false,
      if_true, reduceIte]
    constructor
    · split <;> rfl
    · split <;> simp [hlast, List.getLast?_concat]

/-- Witness for C4's generic parts at the scenario run with the enum value
known: the flag fires and the trailing token is marked `ne`. -/
theorem c4_classification_witness :
    (colourize cexEnumsVal cexTypes cexNs cexRun).2 = true ∧
    (colourize cexEnumsVal cexTypes cexNs cexRun).1.getLast? =
      cexRun.getLast?.map (fun last => { last with classes := html_set_class "ne" }) :=
  c4_classification.2.2.1 cexEnumsVal cexTypes cexNs cexRun (by decide) (by decide)

/-- `badgeSeq` distributes over append. -/
theorem badgeSeq_append (l1 l2 : List String) :
    badgeSeq (l1 ++ l2) = badgeSeq l1 ++ badgeSeq l2 := by
  simp [badgeSeq]

/-- A found span index is within the contents. -/
theorem firstSpanIdx_le_length : ∀ (l : List HNode) (i : Nat),
    firstSpanIdx l = some i → i ≤ l.length
  | [], i, h => by cases h
  | .helem name cls attrs ch :: rest, i, h => by
    by_cases hs : name = "span"
    · simp [firstSpanIdx, hs] at h
      omega
    · simp only [firstSpanIdx, hs, if_false, Bool.false_eq_true] at h
      cases hr : firstSpanIdx rest with
      | none => rw [hr] at h; cases h
      | some j =>
        rw [hr] at h
        simp only [Option.map_some', Option.some.injEq] at h
        have := firstSpanIdx_le_length rest j hr
        simp only [List.length_cons]
        omega
  | .htext s :: rest, i, h => by
    simp only [firstSpanIdx] at h
    cases hr : firstSpanIdx rest with
    | none => rw [hr] at h; cases h
    | some j =>
      rw [hr] at h
      simp only [Option.map_some', Option.some.injEq] at h
      have := firstSpanIdx_le_length rest j hr
      simp only [List.length_cons]
      omega

/-- Inserting before a fixed position accumulates the badges in reverse:
each new badge lands before the previously inserted one. -/
theorem insertBadges_some : ∀ (ms : List String) (cur : List HNode) (i : Nat),
    i ≤ cur.length →
    insertBadges ms cur (some i) = cur.take i ++ badgeSeq ms.reverse ++ cur.drop i
  | [], cur, i, h => by simp [insertBadges, badgeSeq]
  | m :: ms, cur, i, h => by
    simp only [insertBadges]
    have hlen : (cur.take i).length = i := by
      simp [List.length_take]
      omega
    rw [insertBadges_some ms (cur.take i ++ [badgeNode m, .htext " "] ++ cur.drop i) i
      (by simp [List.length_take]; omega)]
    have htake : (cur.take i ++ [badgeNode m, .htext " "] ++ cur.drop i).take i = cur.take i := by
      rw [List.append_assoc, List.take_append_of_le_length (by omega), List.take_of_length_le (by omega)]
    have hdrop : (cur.take i ++ [badgeNode m, .htext " "] ++ cur.drop i).drop i =
        [badgeNode m, .htext " "] ++ cur.drop i := by
      rw [List.append_assoc, List.drop_append_of_le_length (by omega),
        List.drop_of_length_le (by omega), List.nil_append]
    rw [htake, hdrop, List.reverse_cons, badgeSeq_append]
    simp [badgeSeq]

/-- Appending the first badge then inserting before it likewise accumulates
the badges in reverse. -/
theorem insertBadges_none : ∀ (ms : List String) (cur : List HNode),
    insertBadges ms cur none = cur ++ badgeSeq ms.reverse
  | [], cur => by simp [insertBadges, badgeSeq]
  | m :: ms, cur => by
    simp only [insertBadges]
    rw [insertBadges_some ms (cur ++ [badgeNode m, .htext " "]) cur.length (by simp)]
    rw [List.take_left, List.drop_left, List.reverse_cons, badgeSeq_append]
    simp [badgeSeq]

/-- C8, counterexample: two modifiers extracted left-to-right come back as
badges in the opposite order. -/
theorem c8_counterexample :
    (modExtract "a noexcept b constexpr c").1 = ["noexcept", "constexpr"] ∧
    modifiersFix2Func "a noexcept b constexpr c" cexWrapEnd =
      ("a b c",
       [badgeNode "constexpr", .htext " ", badgeNode "noexcept", .htext " ",
        .helem "span" [] [] [.htext ")"]], true) :=
  ⟨by decide, by decide⟩

/-- C8, amended: every modifier extracted from the bumper is reinserted as a
trailing badge, but the badges appear in reverse left-to-right order — each
one is inserted before the previously inserted badge (before the wrap's
first span when one exists, appended otherwise). -/
theorem c8_badges_reversed :
    (∀ (ms : List String) (cur : List HNode) (i : Nat), i ≤ cur.length →
      insertBadges ms cur (some i) = cur.take i ++ badgeSeq ms.reverse ++ cur.drop i) ∧
    (∀ (ms : List String) (cur : List HNode),
      insertBadges ms cur none = cur ++ badgeSeq ms.reverse) ∧
    (∀ (bumper : String) (endc : List HNode), (modExtract bumper).1 ≠ [] →
      modifiersFix2Func bumper endc =
        ((modExtract bumper).2,
         (match firstSpanIdx endc with
          | some i => endc.take i ++ badgeSeq (modExtract bumper).1.reverse ++ endc.drop i
          | none => endc ++ badgeSeq (modExtract bumper).1.reverse), true)) := by
  refine ⟨insertBadges_some, insertBadges_none, ?_⟩
  intro bumper endc hne
  have hempty : (modExtract bumper).1.isEmpty = false := by
    cases h : (modExtract bumper).1 with
    | nil => exact absurd h hne
    | cons x xs => rfl
  simp only [modifiersFix2Func, hempty, Bool.false_eq_true, if_false]
  cases hs : firstSpanIdx endc with
  | none => rw [insertBadges_none]
  | some i => rw [insertBadges_some _ _ _ (firstSpanIdx_le_length endc i hs)]

/-- Witness for C8's reinsertion characterization at a one-modifier
bumper. -/
theorem c8_badges_reversed_witness :
    modifiersFix2Func "x protected y" cexWrapEnd =
      ("x y", [badgeNode "protected", .htext " ", .helem "span" [] [] [.htext ")"]],
        true) := by
  have h := c8_badges_reversed.2.2 "x protected y" cexWrapEnd (by decide)
  exact h.trans (by decide)

/-- C6: a payload parsing as a base-16 numeral at most `0x10FFFF` yields the
numeric character reference; a larger value or a payload that does not parse
passes through as a named entity reference. -/
theorem c6_entity_resolution :
    (∀ (content : String) (v : Int), pyIntHex content = some v → v ≤ 0x10FFFF →
      entitySubstitute content = "&#x" ++ intHexFmt v ++ ";") ∧
    (∀ (content : String) (v : Int), pyIntHex content = some v → 0x10FFFF < v →
      entitySubstitute content = "&" ++ content ++ ";") ∧
    (∀ content : String, content ≠ "" → pyIntHex content = none →
      entitySubstitute content = "&" ++ content ++ ";") := by
  have hne : ∀ (content : String) (v : Int), pyIntHex content = some v →
      content.isEmpty = false := by
    intro content v h
    cases hc : content.isEmpty
    · rfl
    · rw [String.isEmpty_iff] at hc
      rw [hc] at h
      cases (rfl : pyIntHex "" = none).symm.trans h
  refine ⟨?_, ?_, ?_⟩
  · intro content v h hle
    simp only [entitySubstitute, hne content v h, Bool.false_eq_true, if_false, h]
    rw [if_pos hle]
  · intro content v h hgt
    simp only [entitySubstitute, hne content v h, Bool.false_eq_true, if_false, h]
    rw [if_neg (by omega)]
  · intro content hce h
    have hc : content.isEmpty = false := by
      cases hc2 : content.isEmpty
      · rfl
      · exact absurd ((String.isEmpty_iff _).mp hc2) hce
    simp only [entitySubstitute, hc, Bool.false_eq_true, if_false, h]

/-- Witness for C6: payload `48` yields the reference for code point `0x48`;
a non-numeric payload and an out-of-range one pass through. -/
theorem c6_entity_resolution_witness :
    entitySubstitute "48" = "&#x48;" ∧
    entitySubstitute "amp" = "&amp;" ∧
    entitySubstitute "110000" = "&110000;" :=
  ⟨(c6_entity_resolution.1 "48" 0x48 (by decide) (by decide)).trans (by decide),
   (c6_entity_resolution.2.2 "amp" (by decide) (by decide)).trans (by decide),
   (c6_entity_resolution.2.1 "110000" 0x110000 (by decide) (by decide)).trans (by decide)⟩

/-- Dictionary lookup after inserting the same key. -/
theorem dictGet?_insert_self (k : String) (v : EmojiVal) :
    ∀ l, dictGet? k (dictInsert k v l) = some v
  | [] => by simp [dictInsert, dictGet?]
  | (k2, v2) :: rest => by
    by_cases h : k2 = k
    · simp [dictInsert, dictGet?, h]
    · simp only [dictInsert, h, if_false, Bool.false_eq_true]
      simp [dictGet?, h, dictGet?_insert_self k v rest]

/-- Dictionary lookup after inserting a different key. -/
theorem dictGet?_insert_ne (k k2 : String) (v : EmojiVal) (h : k ≠ k2) :
    ∀ l, dictGet? k (dictInsert k2 v l) = dictGet? k l
  | [] => by simp [dictInsert, dictGet?, Ne.symm h]
  | (k3, v3) :: rest => by
    by_cases h3 : k3 = k2
    · simp only [dictInsert, h3, if_true, reduceIte]
      simp [dictGet?, fun hh : k3 = k => h (hh.symm.trans h3), h3, Ne.symm h]
    · simp only [dictInsert, h3, if_false, Bool.false_eq_true, reduceIte]
      by_cases h4 : k3 = k
      · simp [dictGet?, h4]
      · simp [dictGet?, h4, dictGet?_insert_ne k k2 v h rest]

/-- In a processed emoji table, `sundae` holds exactly what `ice_cream`
holds. -/
theorem buildEmojis_sundae_eq (raw : List (String × String)) (t : EmojiTable)
    (h : buildEmojis raw = .ok t) :
    dictGet? "sundae" t.entries = dictGet? "ice_cream" t.entries := by
  simp only [buildEmojis] at h
  generalize hB : (raw.foldl (fun acc kv =>
      match uriCodepoint kv.2 with
      | some cp => (dictInsert kv.1 (EmojiVal.entry cp kv.2) acc.1, insertCp cp acc.2)
      | none => acc) (([], []) : List (String × EmojiVal) × List Nat)) = B at h
  split at h
  · cases h
  · rename_i v1 h1
    split at h
    · cases h
    · rename_i v2 h2
      simp only [Except.ok.injEq] at h
      subst h
      simp only []
      rw [dictGet?_insert_ne "sundae" "__processed" _ (by decide),
        dictGet?_insert_ne "sundae" "__codepoints" _ (by decide),
        dictGet?_insert_ne "sundae" "info" _ (by decide),
        dictGet?_insert_self "sundae" v1,
        dictGet?_insert_ne "ice_cream" "__processed" _ (by decide),
        dictGet?_insert_ne "ice_cream" "__codepoints" _ (by decide),
        dictGet?_insert_ne "ice_cream" "info" _ (by decide),
        dictGet?_insert_ne "ice_cream" "sundae" _ (by decide),
        h1]

/-- C5, counterexample: the table's bookkeeping keys are looked up like
shortcodes, so the unknown shortcode `__processed` raises a `TypeError`
(instead of resolving to the empty string) and `__codepoints` resolves to
the first stored code point (instead of the empty string). -/
theorem c5_counterexample :
    (buildEmojis cexEmojiRaw).map (fun t => emojiSubstitute t "__processed") =
      .ok (.error ()) ∧
    (buildEmojis cexEmojiRaw).map (fun t => emojiSubstitute t "__codepoints") =
      .ok (.ok "&#x1F366;&#xFE0F;") :=
  ⟨by decide, by decide⟩

/-- C5, amended: a hexadecimal literal naming a known code point wins, then a
decimal literal naming a known code point, then the case-insensitive table
lookup (where `sundae` resolves exactly like its alias target `ice_cream` in
every processed table); a shortcode missing from the table resolves to the
empty string — except the two bookkeeping keys stored in the table, which are
looked up like shortcodes. -/
theorem c5_emoji_resolution :
    (∀ (t : EmojiTable) (c : String) (v : Int),
      pyIntHex (strToLower c) = some v → 0 ≤ v → t.codepoints.contains v.toNat = true →
      emojiSubstitute t c = .ok (emojiRef v.toNat)) ∧
    (∀ (t : EmojiTable) (c : String) (v : Int),
      pyIntHex (strToLower c) = none → pyIntDec (strToLower c) = some v → 0 ≤ v →
      t.codepoints.contains v.toNat = true →
      emojiSubstitute t c = .ok (emojiRef v.toNat)) ∧
    (∀ (t : EmojiTable) (c : String) (cp : Nat) (uri : String),
      strToLower c ≠ "" →
      pyIntHex (strToLower c) = none → pyIntDec (strToLower c) = none →
      dictGet? (strToLower c) t.entries = some (.entry cp uri) →
      emojiSubstitute t c = .ok (emojiRef cp)) ∧
    (∀ (t : EmojiTable) (c : String),
      strToLower c ≠ "" →
      pyIntHex (strToLower c) = none → pyIntDec (strToLower c) = none →
      dictGet? (strToLower c) t.entries = none →
      emojiSubstitute t c = .ok "") ∧
    (∀ (raw : List (String × String)) (t : EmojiTable), buildEmojis raw = .ok t →
      emojiSubstitute t "sundae" = emojiSubstitute t "ice_cream") := by
  have hnonempty : ∀ (c : String) (v : Int), pyIntHex c = some v → c.isEmpty = false := by
    intro c v h
    cases hc : c.isEmpty
    · rfl
    · rw [String.isEmpty_iff] at hc
      rw [hc] at h
      cases (rfl : pyIntHex "" = none).symm.trans h
  refine ⟨?_, ?_, ?_, ?_, ?_⟩
  · intro t c v hhex h0 hcp
    simp only [emojiSubstitute, hnonempty _ v hhex, Bool.false_eq_true, if_false, hhex]
    rw [if_pos ⟨h0, hcp⟩]
  · intro t c v hhex hdec h0 hcp
    have hne : (strToLower c).isEmpty = false := by
      cases hc : (strToLower c).isEmpty
      · rfl
      · rw [String.isEmpty_iff] at hc
        rw [hc] at hdec
        cases (rfl : pyIntDec "" = none).symm.trans hdec
    simp only [emojiSubstitute, hne, Bool.false_eq_true, if_false, hhex, hdec]
    rw [if_pos ⟨h0, hcp⟩]
  · intro t c cp uri hne hhex hdec hget
    have hie : (strToLower c).isEmpty = false := by
      cases hc : (strToLower c).isEmpty
      · rfl
      · exact absurd ((String.isEmpty_iff _).mp hc) hne
    simp only [emojiSubstitute, hie, Bool.false_eq_true, if_false, hhex, hdec, hget]
  · intro t c hne hhex hdec hget
    have hie : (strToLower c).isEmpty = false := by
      cases hc : (strToLower c).isEmpty
      · rfl
      · exact absurd ((String.isEmpty_iff _).mp hc) hne
    simp only [emojiSubstitute, hie, Bool.false_eq_true, if_false, hhex, hdec, hget]
  · intro raw t h
    have hlook := buildEmojis_sundae_eq raw t h
    simp only [emojiSubstitute,
      show strToLower "sundae" = "sundae" from by decide,
      show strToLower "ice_cream" = "ice_cream" from by decide,
      show pyIntHex "sundae" = none from by decide,
      show pyIntDec "sundae" = none from by decide,
      show pyIntHex "ice_cream" = none from by decide,
      show pyIntDec "ice_cream" = none from by decide,
      show ("sundae" : String).isEmpty = false from by decide,
      show ("ice_cream" : String).isEmpty = false from by decide,
      Bool.false_eq_true, if_false]
    rw [hlook]

/-- Witness for C5 at the concrete raw table: `sundae` and `ice_cream`
resolve identically, to the ice-cream code point's reference. -/
theorem c5_emoji_resolution_witness :
    emojiSubstitute cexEmojiTable "sundae" = emojiSubstitute cexEmojiTable "ice_cream" ∧
    emojiSubstitute cexEmojiTable "sundae" = .ok (emojiRef 127846) :=
  ⟨c5_emoji_resolution.2.2.2.2 cexEmojiRaw cexEmojiTable (by decide),
   c5_emoji_resolution.2.2.1 cexEmojiTable "sundae" 127846 "e/unicode/1F366.png"
     (by decide) (by decide) (by decide) (by decide)⟩

/-- `anchorsOf` distributes over append. -/
theorem anchorsOf_append : ∀ (l1 l2 : List HNode),
    anchorsOf (l1 ++ l2) = anchorsOf l1 ++ anchorsOf l2
  | [], l2 => by simp [anchorsOf]
  | x :: rest, l2 => by
    have ih := anchorsOf_append rest l2
    simp only [List.cons_append, anchorsOf, List.append_assoc]
    rw [show rest.append l2 = rest ++ l2 from rfl, ih]

/-- A generated anchor is an `a` element, so it is its own anchor list. -/
theorem anchorsOfNode_injected (uri m : String) :
    anchorsOfNode (injectedAnchor uri m) = [injectedAnchor uri m] := by
  unfold injectedAnchor
  split <;> rfl

/-- Every anchor of a rewritten text string is a generated anchor. -/
theorem anchorsOf_segNodes (e : AutoExpr) (s : String) :
    ∀ y ∈ anchorsOf (segNodes e s), ∃ m, y = injectedAnchor e.uri m := by
  unfold segNodes
  generalize e.split s = segs
  induction segs with
  | nil => simp [anchorsOf]
  | cons sg rest ih =>
    intro y hy
    rw [List.flatMap_cons, anchorsOf_append] at hy
    rcases List.mem_append.mp hy with hy | hy
    · cases sg with
      | plain t =>
        by_cases ht : t.isEmpty <;>
          simp [ht, anchorsOf, anchorsOfNode] at hy
      | hit m =>
        refine ⟨m, ?_⟩
        simpa [anchorsOf, anchorsOfNode_injected] using hy
    · exact ih y hy

mutual

/-- Every anchor of a node survives one pattern's rewrite in order, with its
whole subtree intact (text inside a hyperlink is never rewrapped). -/
theorem anchors_wrapNode_sublist (e : AutoExpr) :
    ∀ x : HNode, (anchorsOfNode x).Sublist (anchorsOf (wrapNode e x))
  | .htext s => by simp [anchorsOfNode]
  | .helem n cls attrs ch => by
    by_cases hn : n = "a"
    · simp [anchorsOfNode, wrapNode, hn, anchorsOf]
    · simp only [anchorsOfNode, wrapNode, hn, if_false, Bool.false_eq_true]
      simpa [anchorsOf, anchorsOfNode, hn] using anchors_wrapList_sublist e ch

/-- Every anchor of a forest survives one pattern's rewrite in order. -/
theorem anchors_wrapList_sublist (e : AutoExpr) :
    ∀ l : List HNode, (anchorsOf l).Sublist (anchorsOf (wrapList e l))
  | [] => by simp [wrapList]
  | x :: rest => by
    simp only [anchorsOf, wrapList, anchorsOf_append]
    exact (anchors_wrapNode_sublist e x).append (anchors_wrapList_sublist e rest)

end

mutual

/-- Every anchor present after one pattern's rewrite of a node was already
there or is a generated anchor of that pattern. -/
theorem anchors_wrapNode_mem (e : AutoExpr) :
    ∀ (x : HNode) (y : HNode), y ∈ anchorsOf (wrapNode e x) →
      y ∈ anchorsOfNode x ∨ ∃ m, y = injectedAnchor e.uri m
  | .htext s, y => by
    intro hy
    exact Or.inr (anchorsOf_segNodes e s y hy)
  | .helem n cls attrs ch, y => by
    intro hy
    by_cases hn : n = "a"
    · simp only [wrapNode, hn, if_true, reduceIte] at hy
      exact Or.inl (by simpa [anchorsOf, anchorsOfNode, hn] using hy)
    · simp only [wrapNode, hn, if_false, Bool.false_eq_true, reduceIte] at hy
      have hy2 : y ∈ anchorsOf (wrapList e ch) := by
        simpa [anchorsOf, anchorsOfNode, hn] using hy
      rcases anchors_wrapList_mem e ch y hy2 with h | h
      · exact Or.inl (by simpa [anchorsOfNode, hn] using h)
      · exact Or.inr h

/-- Every anchor present after one pattern's rewrite of a forest was already
there or is a generated anchor of that pattern. -/
theorem anchors_wrapList_mem (e : AutoExpr) :
    ∀ (l : List HNode) (y : HNode), y ∈ anchorsOf (wrapList e l) →
      y ∈ anchorsOf l ∨ ∃ m, y = injectedAnchor e.uri m
  | [], y => by intro hy; simp [wrapList, anchorsOf] at hy
  | x :: rest, y => by
    intro hy
    rw [wrapList, anchorsOf_append] at hy
    rcases List.mem_append.mp hy with hy | hy
    · rcases anchors_wrapNode_mem e x y hy with h | h
      · exact Or.inl (by simp [anchorsOf, List.mem_append, h])
      · exact Or.inr h
    · rcases anchors_wrapList_mem e rest y hy with h | h
      · exact Or.inl (by simp [anchorsOf, List.mem_append, h])
      · exact Or.inr h

end

/-- C9: the auto-link injection phase never wraps text that already sits
inside a hyperlink and never rewraps text consumed by an earlier pattern:
every anchor present before a pattern runs survives, in order and with its
subtree (hence its text) intact — in particular anchors generated by earlier
patterns in the same pass — and every anchor ever present is either original
or a generated anchor of one of the configured patterns. -/
theorem c9_no_double_wrap :
    (∀ (e : AutoExpr) (l : List HNode),
      (anchorsOf l).Sublist (anchorsOf (wrapList e l))) ∧
    (∀ (e : AutoExpr) (l : List HNode) (y : HNode), y ∈ anchorsOf (wrapList e l) →
      y ∈ anchorsOf l ∨ ∃ m, y = injectedAnchor e.uri m) ∧
    (∀ (exprs : List AutoExpr) (l : List HNode),
      (anchorsOf l).Sublist (anchorsOf (autoLinkPass exprs l))) ∧
    (∀ (exprs : List AutoExpr) (l : List HNode) (y : HNode),
      y ∈ anchorsOf (autoLinkPass exprs l) →
      y ∈ anchorsOf l ∨ ∃ e, e ∈ exprs ∧ ∃ m, y = injectedAnchor e.uri m) := by
  have hpass : ∀ (exprs : List AutoExpr) (l : List HNode),
      (anchorsOf l).Sublist (anchorsOf (autoLinkPass exprs l)) := by
    intro exprs
    induction exprs with
    | nil => intro l; simp [autoLinkPass]
    | cons e rest ih =>
      intro l
      have h1 := anchors_wrapList_sublist e l
      have h2 := ih (wrapList e l)
      exact h1.trans (by simpa [autoLinkPass] using h2)
  have hmem : ∀ (exprs : List AutoExpr) (l : List HNode) (y : HNode),
      y ∈ anchorsOf (autoLinkPass exprs l) →
      y ∈ anchorsOf l ∨ ∃ e, e ∈ exprs ∧ ∃ m, y = injectedAnchor e.uri m := by
    intro exprs
    induction exprs with
    | nil => intro l y hy; exact Or.inl (by simpa [autoLinkPass] using hy)
    | cons e rest ih =>
      intro l y hy
      have hy2 : y ∈ anchorsOf (autoLinkPass rest (wrapList e l)) := by
        simpa [autoLinkPass] using hy
      rcases ih (wrapList e l) y hy2 with h | h
      · rcases anchors_wrapList_mem e l y h with h2 | h2
        · exact Or.inl h2
        · exact Or.inr ⟨e, by simp, h2⟩
      · obtain ⟨e2, he2, m, hm⟩ := h
        exact Or.inr ⟨e2, by simp [he2], m, hm⟩
  exact ⟨anchors_wrapList_sublist, anchors_wrapList_mem, hpass, hmem⟩

/-- Witness for C9 at a concrete pass: the generated anchor in the output is
accounted for as an injection of the configured pattern, and the existing
link's anchor survives the pass. -/
theorem c9_no_double_wrap_witness :
    (injectedAnchor "http://u" "foo" ∈ anchorsOf cexAutoDoc ∨
      ∃ e, e ∈ [cexAutoExpr] ∧ ∃ m,
        injectedAnchor "http://u" "foo" = injectedAnchor e.uri m) ∧
    (anchorsOf cexAutoDoc).Sublist (anchorsOf (autoLinkPass [cexAutoExpr] cexAutoDoc)) :=
  ⟨c9_no_double_wrap.2.2.2 [cexAutoExpr] cexAutoDoc (injectedAnchor "http://u" "foo")
      (by decide),
   c9_no_double_wrap.2.2.1 [cexAutoExpr] cexAutoDoc⟩

/-- Unrolling one context of a pass. -/
theorem promotePass_cons (c : InlineCtx) (rest : List InlineCtx) :
    (promotePass (c :: rest)).1 =
      (if c.parentName = "p" && c.grandName = "div" then
        (⟨"pre", c.classes, c.grandName, "", c.parentRestBlank, c.parentRestBlank⟩ : InlineCtx)
      else c) :: (promotePass rest).1 ∧
    (promotePass (c :: rest)).2 =
      ((c.parentName = "p" && c.grandName = "div") || (promotePass rest).2) := by
  by_cases hc : c.parentName = "p" ∧ c.grandName = "div"
  · simp [promotePass, hc.1, hc.2]
  · rcases not_and_or.mp hc with h | h <;> simp [promotePass, h]

/-- A pass that reports no promotion leaves the contexts unchanged. -/
theorem promotePass_id : ∀ l : List InlineCtx,
    (promotePass l).2 = false → (promotePass l).1 = l
  | [] => by intro _; rfl
  | c :: rest => by
    intro h
    have hcons := promotePass_cons c rest
    rw [hcons.2, Bool.or_eq_false_iff] at h
    rw [hcons.1, promotePass_id rest h.2, if_neg]
    simp [h.1]

/-- A pass over the contexts never increases the number of promotable
contexts, and strictly decreases it when it reports a promotion. -/
theorem promotePass_count : ∀ l : List InlineCtx,
    countPromotable (promotePass l).1 ≤ countPromotable l ∧
    ((promotePass l).2 = true → countPromotable (promotePass l).1 < countPromotable l)
  | [] => by
    refine ⟨le_refl _, fun h => ?_⟩
    cases h
  | c :: rest => by
    have ih1 := (promotePass_count rest).1
    have ih2 := (promotePass_count rest).2
    have hcons := promotePass_cons c rest
    simp only [countPromotable] at ih1 ih2 ⊢
    rw [hcons.1, hcons.2]
    by_cases hc : (c.parentName = "p" && c.grandName = "div") = true
    · have hpq : c.parentName = "p" ∧ c.grandName = "div" := by
        simpa using hc
      rw [if_pos hc]
      constructor
      · simp only [List.countP_cons]
        simp [hc, hpq.1, hpq.2]
        omega
      · intro _
        simp only [List.countP_cons]
        simp [hc, hpq.1, hpq.2]
        omega
    · have hb : (c.parentName = "p" && c.grandName = "div") = false := by
        simpa using hc
      rw [if_neg hc, hb, Bool.false_or]
      constructor
      · simp only [List.countP_cons]
        omega
      · intro h
        have h3 := ih2 h
        simp only [List.countP_cons]
        omega

/-- Promotable contexts never increase across the phase-two loop. -/
theorem phase2Loop_count_le : ∀ (fuel : Nat) (l : List InlineCtx),
    countPromotable (phase2Loop fuel l).1 ≤ countPromotable l
  | 0, l => le_refl _
  | fuel + 1, l => by
    simp only [phase2Loop]
    cases hr : (promotePass l).2 with
    | false => simpa using (promotePass_count l).1
    | true =>
      simp only [if_true, reduceIte]
      calc countPromotable (phase2Loop fuel (promotePass l).1).1
          ≤ countPromotable (promotePass l).1 := phase2Loop_count_le fuel _
        _ ≤ countPromotable l := (promotePass_count l).1

/-- The phase-two loop reports a change exactly when it changed the
contexts. -/
theorem phase2Loop_flag_iff : ∀ (fuel : Nat) (l : List InlineCtx),
    ((phase2Loop fuel l).2 = true ↔ (phase2Loop fuel l).1 ≠ l)
  | 0, l => by simp [phase2Loop]
  | fuel + 1, l => by
    simp only [phase2Loop]
    cases hr : (promotePass l).2 with
    | false =>
      have hid := promotePass_id l hr
      simp [hid]
    | true =>
      simp only [if_true, reduceIte]
      constructor
      · intro _
        intro heq
        have h1 : countPromotable (phase2Loop fuel (promotePass l).1).1
            ≤ countPromotable (promotePass l).1 := phase2Loop_count_le fuel _
        have h2 : countPromotable (promotePass l).1 < countPromotable l :=
          (promotePass_count l).2 hr
        rw [heq] at h1
        omega
      · intro _
        trivial

/-- C10: `CodeBlockFix.__call__` returns true exactly when its final
inline-promotion phase changed the document — the syntax-highlighting phase's
accumulated flag is overwritten by `changed = False`, so a document whose
code blocks alone were rewritten is reported unchanged (second conjunct: the
keyword repair rewrote a block, yet the call returns false). -/
theorem c10_changed_flag :
    (∀ (P : CBParams) (fuel1 fuel2 : Nat) (d : CBDoc),
      ((codeBlockFixCall P fuel1 fuel2 d).2 = true ↔
        (codeBlockFixCall P fuel1 fuel2 d).1.inlines ≠ d.inlines)) ∧
    codeBlockFixCall cexCBParams 2 2 cexCBDoc = (⟨[[.cspan ["k"] "if"]], []⟩, false) ∧
    (⟨[[.cspan ["k"] "if"]], []⟩ : CBDoc).blocks ≠ cexCBDoc.blocks := by
  refine ⟨?_, by decide, by decide⟩
  intro P f1 f2 d
  simpa [codeBlockFixCall] using phase2Loop_flag_iff f2 d.inlines

end Dox
